import Mathlib

/-!
Verification of the codeindex-mcp indexing engine against its specification.

The Go sources are shallowly embedded: Go maps become association lists with
unique keys, Go strings become Lean strings (`List Char` underneath), machine
integers become `Int`/`Nat`, external collaborators (the bleve inverted index,
the doublestar glob library, the go-gitignore rule engine, `filepath.Match`)
become explicit function parameters.  Each embedded definition mirrors one Go
function and keeps its name.
-/

namespace CodeIndex

/-! ### Association-list model of Go maps -/

/-- Lookup in an association list; the Go-map read `m[k]`. -/
def alookup {α : Type} (k : String) : List (String × α) → Option α
  | [] => none
  | (k', v) :: rest => if k = k' then some v else alookup k rest

/-- Go-map assignment `m[k] = v`: replace the entry for `k`, or append one. -/
def aset {α : Type} (k : String) (v : α) : List (String × α) → List (String × α)
  | [] => [(k, v)]
  | (k', v') :: rest => if k = k' then (k, v) :: rest else (k', v') :: aset k v rest

/-- Go-map deletion `delete(m, k)`: drop the entry for `k`. -/
def aerase {α : Type} (k : String) : List (String × α) → List (String × α)
  | [] => []
  | (k', v') :: rest => if k = k' then rest else (k', v') :: aerase k rest

/-- The keys of an association list. -/
def akeys {α : Type} (l : List (String × α)) : List String := l.map Prod.fst

/-! ### Debouncer (src/unnamed/part_008, package watcher)

`Debouncer.Add` records the latest op per path in a map and restarts the quiet
timer; when the timer fires, `flush` drains the map into one batch.  The timer
itself is real time; the discrete abstraction below is: a sequence of `Add`
calls within one quiet interval, followed by one timer firing (`flush`). -/

/-- The type of file system operation (watcher `EventOp`). -/
inductive EventOp where
  | create
  | write
  | remove
  | rename
deriving DecidableEq, Repr

/-- A batched file system event (watcher `DebouncedEvent`). -/
structure DebouncedEvent where
  Path : String
  Op : EventOp
deriving DecidableEq, Repr

/-- The debouncer's mutable state: the per-path map of pending events
(the quiet-interval timer is abstracted into when `flush` is called). -/
structure Debouncer where
  events : List (String × DebouncedEvent)
deriving DecidableEq, Repr

/-- `Debouncer.Add`: `d.events[path] = DebouncedEvent{Path: path, Op: op}`,
then restart the timer (timer not modelled; `flush` models its firing). -/
def Debouncer.Add (d : Debouncer) (path : String) (op : EventOp) : Debouncer :=
  { events := aset path ⟨path, op⟩ d.events }

/-- `Debouncer.flush`: if the map is empty, emit nothing; otherwise drain the
map into a batch pushed on the output channel and reset the map. -/
def Debouncer.flush (d : Debouncer) : Option (List DebouncedEvent) × Debouncer :=
  if d.events.isEmpty then (none, d)
  else (some (d.events.map Prod.snd), { events := [] })

/-! ### File path index (src/unnamed/part_015, package index)

`FileIndex` keeps a Go map from relative path to `IndexedFile` plus a slice of
the paths kept sorted for deterministic glob iteration. -/

/-- A file that has been indexed (`index.IndexedFile`).  `time.Time` is
modelled as a `Nat` tick count, `int64` as `Int`. -/
structure IndexedFile where
  Path : String
  RelativePath : String
  Language : String
  SizeBytes : Int
  ModTime : Nat
  LineCount : Nat
deriving DecidableEq, Repr

/-- The file path index state (`index.FileIndex`). -/
structure FileIndex where
  files : List (String × IndexedFile)
  sortedPaths : List String
deriving DecidableEq, Repr

/-- `NewFileIndex()`: the empty index. -/
def FileIndex.emptyIndex : FileIndex := { files := [], sortedPaths := [] }

/-- `sort.Strings`: sort a string slice in increasing lexicographic order. -/
def sortStrings (l : List String) : List String :=
  l.insertionSort (· ≤ ·)

/-- `sort.SearchStrings`: smallest index `i` with `k ≤ l[i]` (the result binary
search computes on a sorted slice, written here as a linear scan). -/
def searchIdx (k : String) : List String → Nat
  | [] => 0
  | s :: rest => if k ≤ s then 0 else searchIdx k rest + 1

/-- `FileIndex.AddFile`: store the record under its relative path; if the key
is new, append it to the path slice and restore sorted order. -/
def FileIndex.AddFile (fi : FileIndex) (file : IndexedFile) : FileIndex :=
  let exists_ := (alookup file.RelativePath fi.files).isSome
  let files' := aset file.RelativePath file fi.files
  if exists_ then { files := files', sortedPaths := fi.sortedPaths }
  else { files := files', sortedPaths := sortStrings (fi.sortedPaths ++ [file.RelativePath]) }

/-- `FileIndex.RemoveFile`: no-op on a missing key; otherwise delete the map
entry and splice the path out of the sorted slice at the binary-search index. -/
def FileIndex.RemoveFile (fi : FileIndex) (relativePath : String) : FileIndex :=
  if (alookup relativePath fi.files).isSome then
    let files' := aerase relativePath fi.files
    let idx := searchIdx relativePath fi.sortedPaths
    let sp :=
      if idx < fi.sortedPaths.length ∧ fi.sortedPaths.getD idx "" = relativePath then
        fi.sortedPaths.eraseIdx idx
      else fi.sortedPaths
    { files := files', sortedPaths := sp }
  else fi

/-- `FileIndex.GetFile`: map lookup by relative path. -/
def FileIndex.GetFile (fi : FileIndex) (relativePath : String) : Option IndexedFile :=
  alookup relativePath fi.files

/-- `FileIndex.AllFiles`: all indexed files in sorted-path order. -/
def FileIndex.AllFiles (fi : FileIndex) : List IndexedFile :=
  fi.sortedPaths.filterMap (fun p => alookup p fi.files)

/-- `FileIndex.Clear`: reset both structures. -/
def FileIndex.Clear (_fi : FileIndex) : FileIndex := FileIndex.emptyIndex

/-- One mutation of the file path index. -/
inductive FOp where
  | add (f : IndexedFile)
  | remove (k : String)
deriving Repr

/-- Apply a sequence of `AddFile`/`RemoveFile` calls, oldest first. -/
def applyFOps (ops : List FOp) (fi : FileIndex) : FileIndex :=
  match ops with
  | [] => fi
  | FOp.add f :: rest => applyFOps rest (fi.AddFile f)
  | FOp.remove k :: rest => applyFOps rest (fi.RemoveFile k)

/-- The `FileIndex` representation invariant: the path slice is sorted and
duplicate-free, its members are exactly the map keys, the map keys are unique,
and every stored record carries its own key as `RelativePath`. -/
def FileIndex.Inv (fi : FileIndex) : Prop :=
  fi.sortedPaths.Sorted (· ≤ ·) ∧
  fi.sortedPaths.Nodup ∧
  (∀ k, k ∈ fi.sortedPaths ↔ (alookup k fi.files).isSome) ∧
  (akeys fi.files).Nodup ∧
  (∀ k f, alookup k fi.files = some f → f.RelativePath = k)

/-- One glob search hit (`index.FileSearchResult`). -/
structure FileSearchResult where
  File : IndexedFile
deriving DecidableEq, Repr

/-- The iteration loop of `SearchByGlob`: walk the sorted path slice, stop once
`maxResults` hits are collected; `m` is the external `doublestar.Match`
(`none` models a match error, which the loop skips). -/
def sbgLoop (m : String → String → Option Bool) (pat : String)
    (files : List (String × IndexedFile)) (maxR : Int) :
    List String → List FileSearchResult → List FileSearchResult
  | [], acc => acc
  | p :: rest, acc =>
    if (acc.length : Int) ≥ maxR then acc
    else
      match m pat p, alookup p files with
      | some true, some f => sbgLoop m pat files maxR rest (acc ++ [⟨f⟩])
      | some true, none => sbgLoop m pat files maxR rest acc
      | some false, _ => sbgLoop m pat files maxR rest acc
      | none, _ => sbgLoop m pat files maxR rest acc

/-- Replace every backslash by a forward slash
(`strings.ReplaceAll(s, "\x5c", "/")`). -/
def normSlash (s : String) : String :=
  String.mk (s.data.map (fun c => if c = '\\' then '/' else c))

/-- `FileIndex.SearchByGlob`: default `maxResults` to 50 when ≤ 0, normalize
the pattern to forward slashes, validate it with the external
`doublestar.ValidatePattern` (`v`), then iterate the sorted path slice.
Returns `Except.error` for an invalid pattern. -/
def FileIndex.SearchByGlob (v : String → Bool) (m : String → String → Option Bool)
    (fi : FileIndex) (pattern : String) (maxResults : Int) :
    Except String (List FileSearchResult) :=
  let maxR := if maxResults ≤ 0 then (50 : Int) else maxResults
  let pat := normSlash pattern
  if v pat then Except.ok (sbgLoop m pat fi.files maxR fi.sortedPaths [])
  else Except.error ("invalid glob pattern: " ++ pat)

/-- A concrete operation sequence used to exercise the file path index. -/
def opsW : List FOp :=
  [FOp.add ⟨"/r/b.go", "b.go", "Go", 10, 5, 1⟩,
   FOp.add ⟨"/r/a.go", "a.go", "Go", 20, 6, 2⟩,
   FOp.add ⟨"/r/a.go", "a.go", "Go", 21, 7, 2⟩,
   FOp.remove "b.go",
   FOp.add ⟨"/r/c.md", "c.md", "Markdown", 3, 8, 1⟩]

/-! ### String helpers shared by the content index and the language detector -/

/-- `strings.ToLower` (ASCII case folding, the only case the claims exercise). -/
def toLowerStr (s : String) : String := String.mk (s.data.map Char.toLower)

/-- Whether `sub` is a prefix of `l` (`strings.HasPrefix` on char lists). -/
def startsWithL : List Char → List Char → Bool
  | [], _ => true
  | _ :: _, [] => false
  | a :: as, b :: bs => a == b && startsWithL as bs

/-- Whether `sub` occurs inside `l` (`strings.Contains` on char lists). -/
def containsL (sub : List Char) : List Char → Bool
  | [] => startsWithL sub []
  | c :: rest => startsWithL sub (c :: rest) || containsL sub rest

/-- `strings.Contains(s, sub)`. -/
def containsSubstr (s sub : String) : Bool := containsL sub.data s.data

/-- Split a char list at every occurrence of `sep`
(`strings.Split`; the result is never empty). -/
def splitOnChar (sep : Char) : List Char → List (List Char)
  | [] => [[]]
  | c :: cs =>
    match splitOnChar sep cs with
    | [] => [[]]
    | l :: ls => if c = sep then [] :: l :: ls else (c :: l) :: ls

/-- `strings.Split(content, "\n")`. -/
def splitLines (s : String) : List String := (splitOnChar '\n' s.data).map String.mk

/-- Whether the string starts and ends with delimiter `d` and has length > 2
(the shape tests of `buildQuery` / `extractSearchTerm`). -/
def shapeDelim (d : Char) (s : String) : Bool :=
  match s.data with
  | [] => false
  | c :: rest => decide (2 < (c :: rest).length) && c == d && rest.getLastD d == d

/-- `strings.TrimSpace` on the char list (leading and trailing whitespace). -/
def trimChars (l : List Char) : List Char :=
  (((l.dropWhile Char.isWhitespace).reverse.dropWhile Char.isWhitespace).reverse)

/-- `strings.TrimSpace`. -/
def trimStr (s : String) : String := String.mk (trimChars s.data)

/-- `extractSearchTerm`: trim, then strip regex `/.../` or phrase `"..."`
delimiters; otherwise the trimmed query itself. -/
def extractSearchTerm (q : String) : String :=
  let t := trimStr q
  if shapeDelim '/' t then String.mk ((t.data.drop 1).dropLast)
  else if shapeDelim '"' t then String.mk ((t.data.drop 1).dropLast)
  else t

/-- Whether `buildQuery` treats the query as a word-level match query
(neither regex- nor phrase-shaped after trimming). -/
def isWordQuery (q : String) : Bool :=
  !(shapeDelim '/' (trimStr q)) && !(shapeDelim '"' (trimStr q))

/-! ### Content index (src/unnamed/part_013 and src/index/content_search.go)

The bleve inverted index is an external collaborator: its hit list enters
`Search` as an explicit argument, and the doublestar matcher used by the glob
post-filter is a function parameter. -/

/-- A single line match within a file (`index.LineMatch`). -/
structure LineMatch where
  LineNumber : Nat
  LineText : String
  ContextBefore : List String
  ContextAfter : List String
deriving DecidableEq, Repr

/-- The match record built by `findMatchingLines` for hit line `i` (0-based):
1-based line number, the line text, and the clamped context slices. -/
def mkLineMatch (lines : List String) (ctx : Int) (i : Nat) (line : String) : LineMatch :=
  { LineNumber := i + 1
    LineText := line
    ContextBefore := if 0 < ctx then (lines.take i).drop ((i : Int) - ctx).toNat else []
    ContextAfter := if 0 < ctx then (lines.drop (i + 1)).take ctx.toNat else [] }

/-- The scanning loop of `findMatchingLines`: `i` is the 0-based index of the
head of the remaining line list inside `lines`. -/
def fmlAux (lines : List String) (term : String) (ctx : Int) :
    Nat → List String → List LineMatch
  | _, [] => []
  | i, line :: rest =>
    (if containsSubstr (toLowerStr line) term then [mkLineMatch lines ctx i line] else []) ++
      fmlAux lines term ctx (i + 1) rest

/-- `findMatchingLines`: case-insensitive substring scan of the newline-split
content for the extracted search term. -/
def findMatchingLines (content query : String) (contextLines : Int) : List LineMatch :=
  let lines := splitLines content
  fmlAux lines (toLowerStr (extractSearchTerm query)) contextLines 0 lines

/-- `index.SearchOptions`. -/
structure SearchOptions where
  Query : String
  FilePath : String
  FileGlob : String
  MaxResults : Int
  ContextLines : Int
deriving DecidableEq, Repr

/-- `index.ContentSearchResult`. -/
structure ContentSearchResult where
  RelativePath : String
  Matches : List LineMatch
deriving DecidableEq, Repr

/-- The document stored in bleve (`index.bleveDocument`). -/
structure BleveDocument where
  Content : String
  Path : String
  Language : String
deriving DecidableEq, Repr

/-- `index.ContentIndex`: the raw-content side map plus the (abstracted)
bleve document store. -/
structure ContentIndex where
  fileContents : List (String × String)
  docs : List (String × BleveDocument)
deriving DecidableEq, Repr

/-- `NewContentIndex()`: both structures empty. -/
def ContentIndex.emptyContent : ContentIndex := ⟨[], []⟩

/-- `ContentIndex.IndexFile`: store the raw content in the side map and the
document in the (abstracted) bleve index, both under the given key. -/
def ContentIndex.IndexFile (ci : ContentIndex) (relativePath content language : String) :
    ContentIndex :=
  { fileContents := aset relativePath content ci.fileContents
    docs := aset relativePath ⟨content, relativePath, language⟩ ci.docs }

/-- `ContentIndex.RemoveFile`: delete the key from both structures. -/
def ContentIndex.RemoveFile (ci : ContentIndex) (relativePath : String) : ContentIndex :=
  { fileContents := aerase relativePath ci.fileContents
    docs := aerase relativePath ci.docs }

/-- `ContentIndex.GetFileContent`: normalize backslashes in the requested
path, then read the side map; `(content, true)` or `("", false)`. -/
def ContentIndex.GetFileContent (ci : ContentIndex) (relativePath : String) : String × Bool :=
  match alookup (normSlash relativePath) ci.fileContents with
  | some c => (c, true)
  | none => ("", false)

/-- `ContentIndex.Clear`: dispose everything and start empty. -/
def ContentIndex.Clear (_ci : ContentIndex) : ContentIndex := ContentIndex.emptyContent

/-- Defaulting at the top of `ContentIndex.Search`: `MaxResults ≤ 0` becomes
50 and `ContextLines < 0` becomes 0. -/
def normalizeOptions (o : SearchOptions) : SearchOptions :=
  { o with
    MaxResults := if o.MaxResults ≤ 0 then 50 else o.MaxResults
    ContextLines := if o.ContextLines < 0 then 0 else o.ContextLines }

/-- The post-filters of `ContentIndex.Search`: a non-empty (normalized)
`FilePath` demands identity and overrides the glob; otherwise a non-empty
`FileGlob` demands a doublestar match (`m`, external; `none` is a match
error, which drops the hit). -/
def passFilters (m : String → String → Option Bool) (normFP fileGlob relativePath : String) :
    Bool :=
  if normFP ≠ "" then relativePath == normFP
  else if fileGlob ≠ "" then
    match m (normSlash fileGlob) relativePath with
    | some true => true
    | _ => false
  else true

/-- Append line matches for key `k` to the grouped results, creating the
group at the end on first sight (the `resultMap`/`orderedPaths` pair of
`ContentIndex.Search` as one insertion-ordered association list). -/
def aAppendMatches (k : String) (ms : List LineMatch) :
    List (String × List LineMatch) → List (String × List LineMatch)
  | [] => [(k, ms)]
  | (k', ms') :: rest =>
    if k' = k then (k', ms' ++ ms) :: rest else (k', ms') :: aAppendMatches k ms rest

/-- The hit-processing loop of `ContentIndex.Search`: look up each hit's raw
content (skip when missing), apply the post-filters, compute line matches
(skip when none), group by file, and stop once `maxR` distinct files have
matches. -/
def searchLoop (m : String → String → Option Bool) (contents : List (String × String))
    (q : String) (ctx : Int) (normFP glob : String) (maxR : Int) :
    List String → List (String × List LineMatch) → Nat →
    List (String × List LineMatch) × Nat
  | [], acc, total => (acc, total)
  | hit :: rest, acc, total =>
    match alookup hit contents with
    | none => searchLoop m contents q ctx normFP glob maxR rest acc total
    | some content =>
      if passFilters m normFP glob hit then
        let lm := findMatchingLines content q ctx
        if lm.isEmpty then searchLoop m contents q ctx normFP glob maxR rest acc total
        else
          let acc' := aAppendMatches hit lm acc
          let total' := total + lm.length
          if (acc'.length : Int) ≥ maxR then (acc', total')
          else searchLoop m contents q ctx normFP glob maxR rest acc' total'
      else searchLoop m contents q ctx normFP glob maxR rest acc total

/-- `ContentIndex.Search`: default the options, normalize `FilePath`, process
the hit list the external bleve query returned (`hits`), and return the
grouped per-file results plus the total line-match count. -/
def ContentIndex.Search (m : String → String → Option Bool) (ci : ContentIndex)
    (hits : List String) (options : SearchOptions) : List ContentSearchResult × Nat :=
  let opts := normalizeOptions options
  let normFP := normSlash opts.FilePath
  let res := searchLoop m ci.fileContents opts.Query opts.ContextLines normFP opts.FileGlob
    opts.MaxResults hits [] 0
  (res.1.map (fun pr => ⟨pr.1, pr.2⟩), res.2)

/-! ### Search tool handler (src/tools/search.go) -/

/-- `tools.SearchArgs` (omitted JSON numbers arrive as 0). -/
structure SearchArgs where
  Query : String
  FilePath : String
  FileGlob : String
  MaxResults : Int
  ContextLines : Int
deriving DecidableEq, Repr

/-- The handler's context-lines defaulting: a value of exactly 0 becomes 2. -/
def handleContextLines (cl : Int) : Int := if cl = 0 then 2 else cl

/-- The `index.SearchOptions` the handler builds from the request arguments. -/
def searchArgsToOptions (args : SearchArgs) : SearchOptions :=
  ⟨args.Query, args.FilePath, args.FileGlob, args.MaxResults,
    handleContextLines args.ContextLines⟩

/-- `SearchHandler.Handle`: reject an empty query, otherwise query the content
index with the defaulted options. -/
def handleSearch (m : String → String → Option Bool) (ci : ContentIndex)
    (hits : List String) (args : SearchArgs) :
    Except String (List ContentSearchResult × Nat) :=
  if args.Query = "" then Except.error "query parameter is required"
  else Except.ok (ContentIndex.Search m ci hits (searchArgsToOptions args))

/-! ### Language detection (src/language/detect.go, src/unnamed/part_012) -/

/-- `language.ExtensionToLanguage`: extension (without dot) to language name. -/
def extensionToLanguage : List (String × String) :=
  [("go", "Go"),
   ("js", "JavaScript"), ("jsx", "JavaScript"), ("mjs", "JavaScript"), ("cjs", "JavaScript"),
   ("ts", "TypeScript"), ("tsx", "TypeScript"), ("mts", "TypeScript"), ("cts", "TypeScript"),
   ("py", "Python"), ("pyi", "Python"), ("pyw", "Python"),
   ("rs", "Rust"),
   ("java", "Java"), ("kt", "Kotlin"), ("kts", "Kotlin"),
   ("c", "C"), ("h", "C"),
   ("cpp", "C++"), ("cc", "C++"), ("cxx", "C++"), ("hpp", "C++"), ("hxx", "C++"),
   ("cs", "C#"), ("csx", "C#"),
   ("swift", "Swift"),
   ("dart", "Dart"),
   ("rb", "Ruby"), ("erb", "Ruby"),
   ("php", "PHP"),
   ("sh", "Shell"), ("bash", "Shell"), ("zsh", "Shell"), ("fish", "Shell"),
   ("ps1", "PowerShell"), ("psm1", "PowerShell"), ("psd1", "PowerShell"),
   ("html", "HTML"), ("htm", "HTML"),
   ("css", "CSS"), ("scss", "SCSS"), ("sass", "Sass"), ("less", "Less"),
   ("json", "JSON"), ("jsonc", "JSON"),
   ("yaml", "YAML"), ("yml", "YAML"),
   ("toml", "TOML"),
   ("xml", "XML"), ("xsl", "XML"), ("xslt", "XML"),
   ("ini", "INI"),
   ("env", "Env"),
   ("properties", "Properties"),
   ("md", "Markdown"), ("mdx", "Markdown"),
   ("rst", "reStructuredText"),
   ("tex", "LaTeX"),
   ("sql", "SQL"),
   ("graphql", "GraphQL"), ("gql", "GraphQL"),
   ("proto", "Protobuf"),
   ("dockerfile", "Dockerfile"),
   ("tf", "Terraform"), ("tfvars", "Terraform"),
   ("lua", "Lua"),
   ("r", "R"), ("rmd", "R"),
   ("scala", "Scala"),
   ("ex", "Elixir"), ("exs", "Elixir"),
   ("erl", "Erlang"), ("hrl", "Erlang"),
   ("hs", "Haskell"),
   ("zig", "Zig"),
   ("vue", "Vue"), ("svelte", "Svelte"),
   ("txt", "Text"),
   ("csv", "CSV"),
   ("svg", "SVG"),
   ("bat", "Batch"), ("cmd", "Batch"),
   ("makefile", "Makefile"),
   ("cmake", "CMake"),
   ("gradle", "Gradle")]

/-- The final path element as chars (`filepath.Base` on slash-normalized,
non-empty relative paths). -/
def baseNameChars (p : String) : List Char := (splitOnChar '/' p.data).getLastD []

/-- The final path element (`filepath.Base`). -/
def baseName (p : String) : String := String.mk (baseNameChars p)

/-- `filepath.Ext`: the suffix of the final path element starting at its last
dot, dot included; empty when the final element has no dot. -/
def extOf (p : String) : String :=
  let b := baseNameChars p
  let pre := b.reverse.takeWhile (fun c => c ≠ '.')
  if pre.length = b.length then "" else String.mk ('.' :: pre.reverse)

/-- `strings.TrimPrefix(s, ".")`. -/
def trimDot (s : String) : String :=
  match s.data with
  | '.' :: rest => String.mk rest
  | _ => s

/-- `language.DetectLanguage`: lowercased extension lookup first; only when
the path has no extension, the fixed lowercased basename switch; otherwise
the sentinel `"Unknown"`. -/
def DetectLanguage (filePath : String) : String :=
  let ext := toLowerStr (trimDot (extOf filePath))
  if ext = "" then
    let base := toLowerStr (baseName filePath)
    if base = "makefile" ∨ base = "gnumakefile" then "Makefile"
    else if base = "dockerfile" then "Dockerfile"
    else if base = "cmakelists.txt" then "CMake"
    else if base = "gemfile" ∨ base = "rakefile" then "Ruby"
    else if base = ".gitignore" ∨ base = ".gitattributes" then "Git Config"
    else if base = ".env" ∨ base = ".env.local" ∨ base = ".env.example" then "Env"
    else "Unknown"
  else
    match alookup ext extensionToLanguage with
    | some lang => lang
    | none => "Unknown"

/-- `count(content, "\n") + 1`: the line count stored in `IndexedFile`. -/
def countLines (c : String) : Nat := c.data.count '\n' + 1

/-! ### Reconciler sync verification (src/sync.go)

Disk state enters as a snapshot `relative path → FileInfo`, and the
read/binary-detect/decode part of `indexSingleFile` is an oracle `ingest`
returning the decoded content and detected language, or `none` when the file
is skipped (binary or unreadable). -/

/-- The `os.FileInfo` fields the reconciler consumes. -/
structure FileInfoM where
  size : Int
  modTime : Nat
deriving DecidableEq, Repr

/-- `indexSingleFile`: on a successful read/decode, build the `IndexedFile`
keyed by the relative path and insert into both indexes; `none` models the
binary/unreadable skip. -/
def indexSingleFileM (ingest : String → Option (String × String)) (relPath : String)
    (info : FileInfoM) (fi : FileIndex) (ci : ContentIndex) :
    Option (FileIndex × ContentIndex) :=
  match ingest relPath with
  | none => none
  | some (content, lang) =>
    some (fi.AddFile ⟨relPath, relPath, lang, info.size, info.modTime, countLines content⟩,
      ci.IndexFile relPath content lang)

/-- Step 2 of `performSyncVerification`: key the `AllFiles` snapshot by
relative path (`indexedSet`, a Go map build). -/
def buildIndexedSet (files : List IndexedFile) : List (String × IndexedFile) :=
  files.foldl (fun mp f => aset f.RelativePath f mp) []

/-- Step 3 of `performSyncVerification`: for every disk path absent from the
index snapshot, attempt `indexSingleFile`; returns the updated indexes and
the attempted (missing) paths. -/
def syncStep3 (ingest : String → Option (String × String))
    (idxSet : List (String × IndexedFile)) :
    List (String × FileInfoM) → FileIndex → ContentIndex →
    FileIndex × ContentIndex × List String
  | [], fi, ci => (fi, ci, [])
  | (relPath, info) :: rest, fi, ci =>
    if (alookup relPath idxSet).isSome then syncStep3 ingest idxSet rest fi ci
    else
      match indexSingleFileM ingest relPath info fi ci with
      | none =>
        let r := syncStep3 ingest idxSet rest fi ci
        (r.1, r.2.1, relPath :: r.2.2)
      | some (fi2, ci2) =>
        let r := syncStep3 ingest idxSet rest fi2 ci2
        (r.1, r.2.1, relPath :: r.2.2)

/-- Step 4 of `performSyncVerification`: every indexed path absent from the
disk snapshot is removed from both indexes (the stale set). -/
def syncStep4 (diskMap : List (String × FileInfoM)) :
    List (String × IndexedFile) → FileIndex → ContentIndex →
    FileIndex × ContentIndex × List String
  | [], fi, ci => (fi, ci, [])
  | (relPath, _) :: rest, fi, ci =>
    if (alookup relPath diskMap).isSome then syncStep4 diskMap rest fi ci
    else
      let r := syncStep4 diskMap rest (fi.RemoveFile relPath) (ci.RemoveFile relPath)
      (r.1, r.2.1, relPath :: r.2.2)

/-- Step 5 of `performSyncVerification`: every path present in both snapshots
whose modification timestamps are not strictly equal is re-ingested. -/
def syncStep5 (ingest : String → Option (String × String))
    (idxSet : List (String × IndexedFile)) :
    List (String × FileInfoM) → FileIndex → ContentIndex →
    FileIndex × ContentIndex × List String
  | [], fi, ci => (fi, ci, [])
  | (relPath, info) :: rest, fi, ci =>
    match alookup relPath idxSet with
    | none => syncStep5 ingest idxSet rest fi ci
    | some indexed =>
      if info.modTime = indexed.ModTime then syncStep5 ingest idxSet rest fi ci
      else
        match indexSingleFileM ingest relPath info fi ci with
        | none =>
          let r := syncStep5 ingest idxSet rest fi ci
          (r.1, r.2.1, relPath :: r.2.2)
        | some (fi2, ci2) =>
          let r := syncStep5 ingest idxSet rest fi2 ci2
          (r.1, r.2.1, relPath :: r.2.2)

/-- The outcome of one sync verification: the three path sets (in attempt
order) and the final index states. -/
structure SyncOutcome where
  missing : List String
  stale : List String
  modified : List String
  fi : FileIndex
  ci : ContentIndex
deriving Repr

/-- `performSyncVerification`: snapshot the index, then run steps 3–5 in
source order against the disk snapshot. -/
def performSyncVerification (ingest : String → Option (String × String))
    (disk : List (String × FileInfoM)) (fi : FileIndex) (ci : ContentIndex) : SyncOutcome :=
  let idxSet := buildIndexedSet fi.AllFiles
  let r3 := syncStep3 ingest idxSet disk fi ci
  let r4 := syncStep4 disk idxSet r3.1 r3.2.1
  let r5 := syncStep5 ingest idxSet disk r4.1 r4.2.1
  ⟨r3.2.2, r4.2.2, r5.2.2, r5.1, r5.2.1⟩

/-! ### Ignore matcher (src/ignore/ignore.go, src/ignore/defaults.go)

`filepath.Match` (Go's shell-glob matcher) is external and enters as the
function parameter `fpMatch`; the two parsed gitignore rule sets (the
external go-gitignore engine) are functions from (relative path, isDir) to
an optional ignore decision, `none` meaning no rule matched.  `ShouldIgnore`
operates on the root-relative, slash-normalized path (the prelude of the Go
function computes it from the absolute path). -/

/-- `ignore.DefaultIgnorePatterns`. -/
def defaultIgnorePatterns : List String :=
  [".git", ".svn", ".hg",
   "node_modules", "vendor", "bower_components", ".npm", ".yarn", ".pnp.*",
   "dist", "build", "out", "target", "bin", "obj",
   ".idea", ".vscode", ".vs", "*.swp", "*.swo", "*~",
   ".DS_Store", "Thumbs.db", "desktop.ini",
   "__pycache__", "*.pyc", "*.pyo", ".venv", "venv", ".env",
   ".go",
   "*.exe", "*.dll", "*.so", "*.dylib", "*.o", "*.a", "*.lib", "*.class", "*.jar", "*.war",
   "*.zip", "*.tar", "*.tar.gz", "*.tgz", "*.rar", "*.7z",
   "*.png", "*.jpg", "*.jpeg", "*.gif", "*.bmp", "*.ico", "*.webp", "*.tiff",
   "*.woff", "*.woff2", "*.ttf", "*.eot", "*.otf",
   "*.mp3", "*.mp4", "*.avi", "*.mov", "*.wav", "*.flac",
   "*.pdf", "*.doc", "*.docx", "*.xls", "*.xlsx", "*.ppt", "*.pptx",
   "*.min.js", "*.min.css",
   "package-lock.json", "yarn.lock", "pnpm-lock.yaml", "Gemfile.lock", "poetry.lock",
   "Cargo.lock", "go.sum", "composer.lock",
   "*.map",
   "coverage", ".nyc_output", "htmlcov",
   ".cache", ".parcel-cache", ".next", ".nuxt",
   "*.log",
   "*.sqlite", "*.sqlite3", "*.db"]

/-- `strings.ContainsAny(pattern, "*?[")`: the non-glob test of
`matchesDefaultPatterns`. -/
def hasGlobMeta (p : String) : Bool :=
  p.data.any (fun c => c == '*' || c == '?' || c == '[')

/-- The slash-separated components of a relative path. -/
def splitSlash (s : String) : List String := (splitOnChar '/' s.data).map String.mk

/-- `Matcher.matchesDefaultPatterns`: non-glob patterns match the basename or
any path component case-insensitively; glob patterns are shell-glob matched
against the lowercased basename and the lowercased relative path. -/
def matchesDefaultPatterns (fpMatch : String → String → Bool) (relativePath : String) : Bool :=
  let baseNameLower := toLowerStr (baseName relativePath)
  defaultIgnorePatterns.any (fun pattern =>
    if !hasGlobMeta pattern then
      baseNameLower == toLowerStr pattern ||
        (splitSlash relativePath).any (fun part => toLowerStr part == toLowerStr pattern)
    else
      fpMatch (toLowerStr pattern) baseNameLower ||
        fpMatch (toLowerStr pattern) (toLowerStr relativePath))

/-- `Matcher.matchesCustomPatterns`: shell-glob match against the relative
path, then against the basename. -/
def matchesCustomPatterns (fpMatch : String → String → Bool) (patterns : List String)
    (relativePath : String) : Bool :=
  patterns.any (fun pattern =>
    fpMatch pattern relativePath || fpMatch pattern (baseName relativePath))

/-- Modelled from the spec: the force-include test of §4.1 rule 1.  The
force-include implementation is missing from `src/ignore/ignore.go` (only its
tests in `src/ignore/ignore_test.go` and the wiring in `main` reference
`ForceIncludePatterns`); following the spec it matches a configured pattern
against the relative path or its basename, like the custom exclude test. -/
def matchesForceInclude (fpMatch : String → String → Bool) (patterns : List String)
    (relativePath : String) : Bool :=
  patterns.any (fun pattern =>
    fpMatch pattern relativePath || fpMatch pattern (baseName relativePath))

/-- `ignore.Matcher`: rule-set state.  The two parsed ignore files are the
external go-gitignore engine, abstracted to decision functions. -/
structure Matcher where
  gitIgnore : String → Bool → Option Bool
  claudeIgnore : String → Bool → Option Bool
  customPatterns : List String
  forceIncludePatterns : List String
  maxFileSizeBytes : Int

/-- `Matcher.ShouldIgnore` on the root-relative slash-normalized path.
Modelled from the spec: rule 1 (the force-include early return, absent from
`src/ignore/ignore.go`) is grafted in front of the decision chain that the
source file implements: default patterns, `.gitignore`, `.claudeignore`,
custom patterns. -/
def Matcher.ShouldIgnore (fpMatch : String → String → Bool) (isDir : Bool) (mch : Matcher)
    (relativePath : String) : Bool :=
  if matchesForceInclude fpMatch mch.forceIncludePatterns relativePath then false
  else if matchesDefaultPatterns fpMatch relativePath then true
  else
    match mch.gitIgnore relativePath isDir with
    | some true => true
    | _ =>
      match mch.claudeIgnore relativePath isDir with
      | some true => true
      | _ => matchesCustomPatterns fpMatch mch.customPatterns relativePath

/-- `Matcher.IsFileTooLarge`. -/
def Matcher.IsFileTooLarge (mch : Matcher) (fileSize : Int) : Bool :=
  fileSize > mch.maxFileSizeBytes

/-- A concrete indexed file used as witness input. -/
def faW : IndexedFile := ⟨"/r/a.go", "a.go", "Go", 1, 1, 1⟩

/-- A doublestar matcher that never matches, used where the glob filter must
be irrelevant. -/
def globNever : String → String → Option Bool := fun _ _ => some false

/-- A concrete two-file content index used by witnesses and counterexamples. -/
def ciTwo : ContentIndex :=
  ContentIndex.IndexFile
    (ContentIndex.IndexFile ContentIndex.emptyContent "a.go" "hello" "Go")
    "b.go" "hello" "Go"

/-- A concrete one-file index used as witness input. -/
def fiW : FileIndex := { files := [("a.go", faW)], sortedPaths := ["a.go"] }

/-- A second concrete indexed file, present only in the index (stale). -/
def fOld : IndexedFile := ⟨"/r/old.go", "old.go", "Go", 1, 9, 1⟩

/-- A concrete two-file file-path index used by the reconciler witness. -/
def fi9 : FileIndex :=
  { files := [("a.go", faW), ("old.go", fOld)], sortedPaths := ["a.go", "old.go"] }

/-- A concrete content index matching `fi9`. -/
def ci9 : ContentIndex :=
  ContentIndex.IndexFile
    (ContentIndex.IndexFile ContentIndex.emptyContent "a.go" "x" "Go") "old.go" "y" "Go"

/-- A concrete disk snapshot: `a.go` modified, `c.go` new, `old.go` gone. -/
def disk9 : List (String × FileInfoM) := [("a.go", ⟨1, 2⟩), ("c.go", ⟨3, 5⟩)]

/-- An ingest oracle that always succeeds. -/
def ingest9 : String → Option (String × String) := fun _ => some ("x", "Go")

/-! ## Lemmas and theorems -/

theorem alookup_aset_self {α : Type} (k : String) (v : α) (l : List (String × α)) :
    alookup k (aset k v l) = some v := by
  induction l with
  | nil => simp [aset, alookup]
  | cons hd tl ih =>
    obtain ⟨k', v'⟩ := hd
    by_cases h : k = k'
    · simp [aset, h, alookup]
    · simp [aset, h, alookup, ih]

theorem alookup_aset_ne {α : Type} {k x : String} (v : α) (l : List (String × α))
    (hne : x ≠ k) : alookup x (aset k v l) = alookup x l := by
  induction l with
  | nil => simp [aset, alookup, hne]
  | cons hd tl ih =>
    obtain ⟨k', v'⟩ := hd
    by_cases h : k = k'
    · subst h
      simp [aset, alookup, hne]
    · by_cases hx : x = k'
      · simp [aset, h, alookup, hx]
      · simp [aset, h, alookup, hx, ih]

theorem akeys_aset {α : Type} (k : String) (v : α) (l : List (String × α)) :
    akeys (aset k v l) = if k ∈ akeys l then akeys l else akeys l ++ [k] := by
  induction l with
  | nil => simp [aset, akeys]
  | cons hd tl ih =>
    obtain ⟨k', v'⟩ := hd
    by_cases h : k = k'
    · simp [aset, h, akeys]
    · simp only [aset, if_neg h, akeys, List.map_cons, List.mem_cons, h, false_or] at ih ⊢
      by_cases hmem : k ∈ List.map Prod.fst tl
      · simp only [akeys] at hmem
        simp [hmem] at ih ⊢
        exact ih
      · simp only [akeys] at hmem
        simp [hmem] at ih ⊢
        exact ih

theorem nodup_akeys_aset {α : Type} (k : String) (v : α) (l : List (String × α))
    (h : (akeys l).Nodup) : (akeys (aset k v l)).Nodup := by
  rw [akeys_aset]
  by_cases hmem : k ∈ akeys l
  · simpa [hmem] using h
  · simp only [hmem, if_false]
    simpa [List.nodup_append] using ⟨h, hmem⟩

theorem alookup_isSome_iff_mem_akeys {α : Type} (k : String) (l : List (String × α)) :
    (alookup k l).isSome ↔ k ∈ akeys l := by
  induction l with
  | nil => simp [alookup, akeys]
  | cons hd tl ih =>
    obtain ⟨k', v'⟩ := hd
    by_cases h : k = k'
    · simp [alookup, h, akeys]
    · simp [alookup, h, akeys, ih]

theorem alookup_aerase_self {α : Type} (k : String) (l : List (String × α))
    (h : (akeys l).Nodup) : alookup k (aerase k l) = none := by
  induction l with
  | nil => simp [aerase, alookup]
  | cons hd tl ih =>
    obtain ⟨k', v'⟩ := hd
    simp only [akeys, List.map_cons, List.nodup_cons] at h
    by_cases hk : k = k'
    · subst hk
      simp only [aerase, if_pos rfl]
      cases hl : alookup k tl with
      | none => exact hl
      | some v =>
        exfalso
        have : k ∈ akeys tl := by
          rw [← alookup_isSome_iff_mem_akeys, hl]; rfl
        exact h.1 this
    · simp [aerase, hk, alookup, ih h.2]

theorem alookup_aerase_ne {α : Type} {k x : String} (l : List (String × α))
    (hne : x ≠ k) : alookup x (aerase k l) = alookup x l := by
  induction l with
  | nil => simp [aerase]
  | cons hd tl ih =>
    obtain ⟨k', v'⟩ := hd
    by_cases hk : k = k'
    · subst hk
      simp [aerase, alookup, hne]
    · by_cases hx : x = k'
      · simp [aerase, hk, alookup, hx]
      · simp [aerase, hk, alookup, hx, ih]

theorem akeys_aerase_sublist {α : Type} (k : String) (l : List (String × α)) :
    (akeys (aerase k l)).Sublist (akeys l) := by
  induction l with
  | nil => simp [aerase]
  | cons hd tl ih =>
    obtain ⟨k', v'⟩ := hd
    by_cases hk : k = k'
    · simp only [aerase, if_pos hk, akeys, List.map_cons]
      exact (List.sublist_cons_self _ _)
    · simpa [aerase, hk, akeys] using ih.cons₂ k'

theorem nodup_akeys_aerase {α : Type} (k : String) (l : List (String × α))
    (h : (akeys l).Nodup) : (akeys (aerase k l)).Nodup :=
  h.sublist (akeys_aerase_sublist k l)

theorem eraseIdx_searchIdx (l : List String) (hs : l.Sorted (· ≤ ·)) (hnd : l.Nodup)
    (k : String) (hk : k ∈ l) :
    searchIdx k l < l.length ∧ l.getD (searchIdx k l) "" = k ∧
    (l.eraseIdx (searchIdx k l)).Sorted (· ≤ ·) ∧ (l.eraseIdx (searchIdx k l)).Nodup ∧
    ∀ x, x ∈ l.eraseIdx (searchIdx k l) ↔ (x ∈ l ∧ x ≠ k) := by
  induction l with
  | nil => cases hk
  | cons s rest ih =>
    rw [List.sorted_cons] at hs
    rw [List.nodup_cons] at hnd
    by_cases hle : k ≤ s
    · have hks : k = s := by
        rcases List.mem_cons.mp hk with h | h
        · exact h
        · exact le_antisymm hle (hs.1 k h)
      subst hks
      refine ⟨by simp [searchIdx, hle], by simp [searchIdx, hle], ?_, ?_, ?_⟩
      · simpa [searchIdx, hle, List.eraseIdx] using hs.2
      · simpa [searchIdx, hle, List.eraseIdx] using hnd.2
      · intro x
        simp only [searchIdx, if_pos hle, List.eraseIdx, List.mem_cons]
        constructor
        · intro hx
          refine ⟨Or.inr hx, ?_⟩
          rintro rfl
          exact hnd.1 hx
        · rintro ⟨hx | hx, hne⟩
          · exact absurd hx hne
          · exact hx
    · have hkrest : k ∈ rest := by
        rcases List.mem_cons.mp hk with h | h
        · exact absurd (le_of_eq h) hle
        · exact h
      obtain ⟨ih1, ih2, ih3, ih4, ih5⟩ := ih hs.2 hnd.2 hkrest
      have herase : (s :: rest).eraseIdx (searchIdx k (s :: rest)) =
          s :: rest.eraseIdx (searchIdx k rest) := by
        simp [searchIdx, hle, List.eraseIdx]
      refine ⟨?_, ?_, ?_, ?_, ?_⟩
      · simpa [searchIdx, hle] using Nat.succ_lt_succ ih1
      · simpa [searchIdx, hle] using ih2
      · rw [herase, List.sorted_cons]
        exact ⟨fun b hb => hs.1 b ((ih5 b).1 hb).1, ih3⟩
      · rw [herase, List.nodup_cons]
        exact ⟨fun hmem => hnd.1 ((ih5 s).1 hmem).1, ih4⟩
      · intro x
        rw [herase]
        simp only [List.mem_cons, ih5]
        constructor
        · rintro (rfl | ⟨hx, hne⟩)
          · exact ⟨Or.inl rfl, fun hxe => hle (le_of_eq hxe.symm)⟩
          · exact ⟨Or.inr hx, hne⟩
        · rintro ⟨rfl | hx, hne⟩
          · exact Or.inl rfl
          · exact Or.inr ⟨hx, hne⟩

theorem FileIndex.inv_empty : FileIndex.emptyIndex.Inv := by
  refine ⟨List.sorted_nil, List.nodup_nil, ?_, ?_, ?_⟩ <;>
    simp [FileIndex.emptyIndex, alookup, akeys]

theorem FileIndex.inv_addFile {fi : FileIndex} (h : fi.Inv) (f : IndexedFile) :
    (fi.AddFile f).Inv := by
  obtain ⟨hsort, hnd, hiff, hknd, hcons⟩ := h
  by_cases hex : (alookup f.RelativePath fi.files).isSome
  · refine ⟨?_, ?_, ?_, ?_, ?_⟩ <;>
      simp only [FileIndex.AddFile, hex, if_true]
    · exact hsort
    · exact hnd
    · intro k
      by_cases hk : k = f.RelativePath
      · subst hk
        simp only [alookup_aset_self, Option.isSome_some, iff_true]
        exact (hiff _).mpr hex
      · rw [alookup_aset_ne _ _ hk]
        exact hiff k
    · exact nodup_akeys_aset _ _ _ hknd
    · intro k g hg
      by_cases hk : k = f.RelativePath
      · subst hk
        rw [alookup_aset_self] at hg
        cases hg
        rfl
      · rw [alookup_aset_ne _ _ hk] at hg
        exact hcons k g hg
  · have hnotmem : f.RelativePath ∉ fi.sortedPaths := fun hmem => hex ((hiff _).mp hmem)
    have hperm : List.Perm (sortStrings (fi.sortedPaths ++ [f.RelativePath]))
        (fi.sortedPaths ++ [f.RelativePath]) :=
      List.perm_insertionSort _ _
    have hexf : (alookup f.RelativePath fi.files).isSome = false := by
      simpa using hex
    refine ⟨?_, ?_, ?_, ?_, ?_⟩ <;>
      simp only [FileIndex.AddFile, hexf, Bool.false_eq_true, if_false]
    · exact List.sorted_insertionSort _ _
    · exact hperm.nodup_iff.mpr (by simp [List.nodup_append, hnd, hnotmem])
    · intro k
      rw [hperm.mem_iff]
      by_cases hk : k = f.RelativePath
      · subst hk
        simp [alookup_aset_self]
      · rw [alookup_aset_ne _ _ hk]
        simp only [List.mem_append, List.mem_singleton, hk, or_false]
        exact hiff k
    · exact nodup_akeys_aset _ _ _ hknd
    · intro k g hg
      by_cases hk : k = f.RelativePath
      · subst hk
        rw [alookup_aset_self] at hg
        cases hg
        rfl
      · rw [alookup_aset_ne _ _ hk] at hg
        exact hcons k g hg

theorem FileIndex.removeFile_missing {fi : FileIndex} {k : String}
    (h : alookup k fi.files = none) : fi.RemoveFile k = fi := by
  simp [FileIndex.RemoveFile, h]

theorem FileIndex.inv_removeFile {fi : FileIndex} (h : fi.Inv) (k : String) :
    (fi.RemoveFile k).Inv := by
  obtain ⟨hsort, hnd, hiff, hknd, hcons⟩ := h
  by_cases hex : (alookup k fi.files).isSome
  · have hmem : k ∈ fi.sortedPaths := (hiff k).mpr hex
    obtain ⟨h1, h2, h3, h4, h5⟩ := eraseIdx_searchIdx fi.sortedPaths hsort hnd k hmem
    have hcond : searchIdx k fi.sortedPaths < fi.sortedPaths.length ∧
        fi.sortedPaths.getD (searchIdx k fi.sortedPaths) "" = k := ⟨h1, h2⟩
    refine ⟨?_, ?_, ?_, ?_, ?_⟩ <;>
      simp only [FileIndex.RemoveFile, hex, if_true, hcond, and_self]
    · exact h3
    · exact h4
    · intro x
      rw [h5 x]
      by_cases hx : x = k
      · subst hx
        simp [alookup_aerase_self x fi.files hknd]
      · rw [alookup_aerase_ne _ hx]
        simp only [hx, ne_eq, not_false_iff, and_true]
        exact hiff x
    · exact nodup_akeys_aerase _ _ hknd
    · intro x g hg
      by_cases hx : x = k
      · subst hx
        rw [alookup_aerase_self x fi.files hknd] at hg
        cases hg
      · rw [alookup_aerase_ne _ hx] at hg
        exact hcons x g hg
  · rw [FileIndex.removeFile_missing (Option.not_isSome_iff_eq_none.mp hex)]
    exact ⟨hsort, hnd, hiff, hknd, hcons⟩

theorem FileIndex.inv_applyFOps (ops : List FOp) {fi : FileIndex} (h : fi.Inv) :
    (applyFOps ops fi).Inv := by
  induction ops generalizing fi with
  | nil => exact h
  | cons op rest ih =>
    cases op with
    | add f => exact ih (FileIndex.inv_addFile h f)
    | remove k => exact ih (FileIndex.inv_removeFile h k)

theorem aset_aset {α : Type} (k : String) (v1 v2 : α) (l : List (String × α)) :
    aset k v2 (aset k v1 l) = aset k v2 l := by
  induction l with
  | nil => simp [aset]
  | cons hd tl ih =>
    obtain ⟨k', v'⟩ := hd
    by_cases h : k = k'
    · simp [aset, h]
    · simp [aset, h, ih]

theorem aset_ne_nil {α : Type} (k : String) (v : α) (l : List (String × α)) :
    aset k v l ≠ [] := by
  cases l with
  | nil => simp [aset]
  | cons hd tl =>
    obtain ⟨k', v'⟩ := hd
    by_cases h : k = k' <;> simp [aset, h]

theorem filter_snd_no_key (l : List (String × DebouncedEvent)) (p : String)
    (hwf : ∀ kv ∈ l, (Prod.snd kv).Path = kv.1) (hp : p ∉ akeys l) :
    (l.map Prod.snd).filter (fun e => e.Path == p) = [] := by
  induction l with
  | nil => rfl
  | cons hd tl ih =>
    obtain ⟨k', v'⟩ := hd
    simp only [akeys, List.map_cons, List.mem_cons, not_or] at hp
    have hv : v'.Path = k' := hwf (k', v') (List.mem_cons_self _ _)
    have : (v'.Path == p) = false := by
      simp [hv]
      exact fun he => hp.1 he.symm
    simp only [List.map_cons, List.filter_cons, this]
    exact ih (fun kv hkv => hwf kv (List.mem_cons_of_mem _ hkv)) hp.2

theorem filter_snd_aset (l : List (String × DebouncedEvent)) (p : String)
    (ev : DebouncedEvent) (hev : ev.Path = p)
    (hnd : (akeys l).Nodup) (hwf : ∀ kv ∈ l, (Prod.snd kv).Path = kv.1) :
    ((aset p ev l).map Prod.snd).filter (fun e => e.Path == p) = [ev] := by
  induction l with
  | nil => simp [aset, hev]
  | cons hd tl ih =>
    obtain ⟨k', v'⟩ := hd
    simp only [akeys, List.map_cons, List.nodup_cons] at hnd
    by_cases h : p = k'
    · subst h
      simp only [aset, if_pos rfl, List.map_cons, List.filter_cons, hev, beq_self_eq_true,
        if_true]
      rw [filter_snd_no_key tl p (fun kv hkv => hwf kv (List.mem_cons_of_mem _ hkv)) hnd.1]
    · have hv : v'.Path = k' := hwf (k', v') (List.mem_cons_self _ _)
      have hne : (v'.Path == p) = false := by
        simp [hv]
        exact fun he => h he.symm
      simp only [aset, if_neg h, List.map_cons, List.filter_cons, hne]
      exact ih hnd.2 (fun kv hkv => hwf kv (List.mem_cons_of_mem _ hkv))

/-- C2: two `Add` calls for the same path within one quiet interval produce,
at the next timer firing, exactly one batch whose single event for that path
carries the second operation; the following firing emits nothing. -/
theorem claim_C2 (d : Debouncer) (p : String) (op1 op2 : EventOp)
    (hnd : (akeys d.events).Nodup)
    (hwf : ∀ kv ∈ d.events, (Prod.snd kv).Path = kv.1) :
    ∃ batch, ((d.Add p op1).Add p op2).flush.1 = some batch ∧
      batch.filter (fun e => e.Path == p) = [⟨p, op2⟩] ∧
      (((d.Add p op1).Add p op2).flush.2).flush.1 = none := by
  have hev : ((d.Add p op1).Add p op2).events = aset p ⟨p, op2⟩ d.events := by
    simp [Debouncer.Add, aset_aset]
  have hne : ((d.Add p op1).Add p op2).events ≠ [] := by
    rw [hev]; exact aset_ne_nil _ _ _
  have hflush : ((d.Add p op1).Add p op2).flush =
      (some (((d.Add p op1).Add p op2).events.map Prod.snd), { events := [] }) := by
    rw [Debouncer.flush, if_neg (by simpa [List.isEmpty_iff] using hne)]
  refine ⟨((d.Add p op1).Add p op2).events.map Prod.snd, ?_, ?_, ?_⟩
  · rw [hflush]
  · rw [hev]
    exact filter_snd_aset d.events p ⟨p, op2⟩ rfl hnd hwf
  · rw [hflush]
    rfl

/-- Witness for C2 at a concrete debouncer state. -/
theorem claim_C2_witness :
    ∃ batch,
      (((Debouncer.mk [("q.go", ⟨"q.go", EventOp.create⟩)]).Add "a.go" EventOp.create).Add
          "a.go" EventOp.write).flush.1 = some batch ∧
      batch.filter (fun e => e.Path == "a.go") = [⟨"a.go", EventOp.write⟩] ∧
      ((((Debouncer.mk [("q.go", ⟨"q.go", EventOp.create⟩)]).Add "a.go" EventOp.create).Add
          "a.go" EventOp.write).flush.2).flush.1 = none :=
  claim_C2 (Debouncer.mk [("q.go", ⟨"q.go", EventOp.create⟩)]) "a.go"
    EventOp.create EventOp.write (by decide) (by decide)

/-- C3: after any finite sequence of `AddFile`/`RemoveFile` operations starting
from the empty index, the path slice is lexicographically sorted and holds each
map key exactly once and nothing else; removing a missing key changes
nothing. -/
theorem claim_C3 (ops : List FOp) :
    ((applyFOps ops FileIndex.emptyIndex).sortedPaths.Sorted (· ≤ ·)) ∧
    (applyFOps ops FileIndex.emptyIndex).sortedPaths.Nodup ∧
    (∀ k, k ∈ (applyFOps ops FileIndex.emptyIndex).sortedPaths ↔
      (alookup k (applyFOps ops FileIndex.emptyIndex).files).isSome) ∧
    (∀ k, alookup k (applyFOps ops FileIndex.emptyIndex).files = none →
      (applyFOps ops FileIndex.emptyIndex).RemoveFile k = applyFOps ops FileIndex.emptyIndex) := by
  obtain ⟨h1, h2, h3, _, _⟩ := FileIndex.inv_applyFOps ops FileIndex.inv_empty
  exact ⟨h1, h2, h3, fun k hk => FileIndex.removeFile_missing hk⟩

theorem sbgLoop_length (m : String → String → Option Bool) (pat : String)
    (files : List (String × IndexedFile)) (maxR : Int) (l : List String)
    (acc : List FileSearchResult) (hacc : (acc.length : Int) ≤ maxR) :
    ((sbgLoop m pat files maxR l acc).length : Int) ≤ maxR := by
  induction l generalizing acc with
  | nil => exact hacc
  | cons p rest ih =>
    rw [sbgLoop]
    by_cases hstop : (acc.length : Int) ≥ maxR
    · rw [if_pos hstop]; exact hacc
    · rw [if_neg hstop]
      have hlt : (acc.length : Int) < maxR := lt_of_not_le hstop
      rcases hm : m pat p with _ | b
      · exact ih acc hacc
      · cases b with
        | false => exact ih acc hacc
        | true =>
          rcases hl : alookup p files with _ | f
          · exact ih acc hacc
          · refine ih (acc ++ [⟨f⟩]) ?_
            rw [List.length_append, List.length_singleton]
            push_cast
            omega

theorem sbgLoop_struct (m : String → String → Option Bool) (pat : String)
    (files : List (String × IndexedFile))
    (hcons : ∀ p f, alookup p files = some f → f.RelativePath = p)
    (maxR : Int) (l : List String) (acc : List FileSearchResult) :
    ∃ s, sbgLoop m pat files maxR l acc = acc ++ s ∧
      (s.map (fun r => r.File.RelativePath)).Sublist l ∧
      ∀ r ∈ s, m pat r.File.RelativePath = some true := by
  induction l generalizing acc with
  | nil => exact ⟨[], by simp [sbgLoop], by simp, by simp⟩
  | cons p rest ih =>
    rw [sbgLoop]
    by_cases hstop : (acc.length : Int) ≥ maxR
    · rw [if_pos hstop]
      exact ⟨[], by simp, by simp, by simp⟩
    · rw [if_neg hstop]
      rcases hm : m pat p with _ | b
      · obtain ⟨s, hs1, hs2, hs3⟩ := ih acc
        exact ⟨s, hs1, hs2.cons p, hs3⟩
      · cases b with
        | false =>
          obtain ⟨s, hs1, hs2, hs3⟩ := ih acc
          exact ⟨s, hs1, hs2.cons p, hs3⟩
        | true =>
          rcases hl : alookup p files with _ | f
          · obtain ⟨s, hs1, hs2, hs3⟩ := ih acc
            exact ⟨s, hs1, hs2.cons p, hs3⟩
          · obtain ⟨s, hs1, hs2, hs3⟩ := ih (acc ++ [⟨f⟩])
            have hrp : f.RelativePath = p := hcons p f hl
            refine ⟨⟨f⟩ :: s, by simpa using hs1, ?_, ?_⟩
            · simpa [hrp] using hs2.cons₂ p
            · intro r hr
              rcases List.mem_cons.mp hr with rfl | hr
              · rw [hrp]; exact hm
              · exact hs3 r hr

/-- C6: `SearchByGlob` rejects an invalid pattern with an error and otherwise
returns at most `maxResults` results (50 when `maxResults ≤ 0`), in
lexicographic relative-path order, each matched by the external doublestar
matcher. -/
theorem claim_C6 (v : String → Bool) (m : String → String → Option Bool)
    (fi : FileIndex) (pattern : String) (maxResults : Int)
    (hsorted : fi.sortedPaths.Sorted (· ≤ ·))
    (hcons : ∀ p f, alookup p fi.files = some f → f.RelativePath = p) :
    (v (normSlash pattern) = false →
      FileIndex.SearchByGlob v m fi pattern maxResults =
        Except.error ("invalid glob pattern: " ++ normSlash pattern)) ∧
    (∀ res, FileIndex.SearchByGlob v m fi pattern maxResults = Except.ok res →
      ((res.length : Int) ≤ (if maxResults ≤ 0 then (50 : Int) else maxResults) ∧
       (res.map (fun r => r.File.RelativePath)).Sorted (· ≤ ·) ∧
       ∀ r ∈ res, m (normSlash pattern) r.File.RelativePath = some true)) := by
  constructor
  · intro hv
    rw [FileIndex.SearchByGlob, if_neg (by simp [hv])]
  · intro res hres
    by_cases hv : v (normSlash pattern)
    · rw [FileIndex.SearchByGlob, if_pos hv] at hres
      cases hres
      obtain ⟨s, hs1, hs2, hs3⟩ :=
        sbgLoop_struct m (normSlash pattern) fi.files hcons
          (if maxResults ≤ 0 then (50 : Int) else maxResults) fi.sortedPaths []
      refine ⟨?_, ?_, ?_⟩
      · refine sbgLoop_length m (normSlash pattern) fi.files _ fi.sortedPaths [] ?_
        by_cases hmr : maxResults ≤ 0
        · simp [hmr]
        · simp only [hmr, if_false, List.length_nil, Nat.cast_zero]
          omega
      · rw [hs1]
        simpa using hsorted.sublist (by simpa using hs2)
      · rw [hs1]
        simpa using hs3
    · rw [FileIndex.SearchByGlob, if_neg hv] at hres
      cases hres

theorem fiW_cons : ∀ p f, alookup p fiW.files = some f → f.RelativePath = p := by
  intro p f h
  by_cases hp : p = "a.go"
  · subst hp
    simp only [alookup, fiW, if_pos rfl] at h
    cases h
    rfl
  · simp [alookup, fiW, hp] at h

/-- Witness for C6 at a concrete index, pattern, and matcher. -/
theorem claim_C6_witness :
    (([⟨faW⟩] : List FileSearchResult).length : Int) ≤
      (if (10 : Int) ≤ 0 then (50 : Int) else 10) ∧
    (([⟨faW⟩] : List FileSearchResult).map (fun r => r.File.RelativePath)).Sorted (· ≤ ·) ∧
    ∀ r ∈ ([⟨faW⟩] : List FileSearchResult),
      (fun pat s => some (pat == s)) (normSlash "a.go") r.File.RelativePath = some true :=
  (claim_C6 (fun _ => true) (fun pat s => some (pat == s)) fiW "a.go" 10
      (by simp [fiW]) fiW_cons).2 [⟨faW⟩] (by rfl)

/-- Witness for C3 at a concrete operation sequence. -/
theorem claim_C3_witness :
    ((applyFOps opsW FileIndex.emptyIndex).sortedPaths.Sorted (· ≤ ·)) ∧
    (applyFOps opsW FileIndex.emptyIndex).sortedPaths.Nodup ∧
    ("b.go" ∈ (applyFOps opsW FileIndex.emptyIndex).sortedPaths ↔
      (alookup "b.go" (applyFOps opsW FileIndex.emptyIndex).files).isSome) ∧
    (applyFOps opsW FileIndex.emptyIndex).RemoveFile "zzz" = applyFOps opsW FileIndex.emptyIndex :=
  ⟨(claim_C3 opsW).1, (claim_C3 opsW).2.1, (claim_C3 opsW).2.2.1 "b.go",
    (claim_C3 opsW).2.2.2 "zzz" (by decide)⟩

theorem normSlash_eq_self {p : String} (h : '\\' ∉ p.data) : normSlash p = p := by
  cases p with
  | mk d =>
    simp only [normSlash]
    congr 1
    induction d with
    | nil => rfl
    | cons c cs ih =>
      have h1 : c ≠ '\\' := fun he => h (by rw [he]; exact List.mem_cons_self _ _)
      have h2 : '\\' ∉ cs := fun hm => h (List.mem_cons_of_mem _ hm)
      have h1s : ¬(c = '\\') := fun he => h1 he
      simp only [List.map_cons, if_neg h1s]
      rw [ih h2]

/-- C1: a force-include pattern match makes the ignore matcher return
"not ignored" immediately, for every rule-set state — so it bypasses the
default patterns, the `.gitignore` rules, the `.claudeignore` rules, and the
custom exclude patterns. -/
theorem claim_C1 (fpMatch : String → String → Bool) (isDir : Bool) (mch : Matcher)
    (relativePath : String)
    (h : matchesForceInclude fpMatch mch.forceIncludePatterns relativePath = true) :
    Matcher.ShouldIgnore fpMatch isDir mch relativePath = false := by
  rw [Matcher.ShouldIgnore, if_pos h]

/-- Witness for C1: a force-included `app.log` is not ignored even though the
default patterns, both ignore files, and the custom excludes all reject it. -/
theorem claim_C1_witness :
    Matcher.ShouldIgnore (fun pat s => pat == s) false
      ⟨fun _ _ => some true, fun _ _ => some true, ["app.log"], ["app.log"], 1048576⟩
      "app.log" = false :=
  claim_C1 (fun pat s => pat == s) false
    ⟨fun _ _ => some true, fun _ _ => some true, ["app.log"], ["app.log"], 1048576⟩
    "app.log" (by decide)

/-- C4 counterexample: for the relative path `a\x5cb` (a backslash is legal in
a POSIX file name), `IndexFile` stores the raw key but `GetFileContent`
normalizes the backslash before the lookup, so the read misses. -/
theorem claim_C4_cex :
    ContentIndex.GetFileContent
      (ContentIndex.IndexFile ContentIndex.emptyContent "a\\b" "x" "Go") "a\\b" ≠
      ("x", true) := by
  decide

/-- C4 (amended): for every backslash-free relative path `p` — i.e. one
already in the forward-slash normal form the data model prescribes —
`GetFileContent p` immediately after `IndexFile p c l` returns `(c, true)`. -/
theorem claim_C4 (ci : ContentIndex) (p c l : String) (h : '\\' ∉ p.data) :
    ContentIndex.GetFileContent (ContentIndex.IndexFile ci p c l) p = (c, true) := by
  have hlook : alookup (normSlash p) (aset p c ci.fileContents) = some c := by
    rw [normSlash_eq_self h]
    exact alookup_aset_self p c ci.fileContents
  simp [ContentIndex.GetFileContent, ContentIndex.IndexFile, hlook]

/-- Witness for C4 at a concrete path and content. -/
theorem claim_C4_witness :
    '\\' ∉ ("a/b.go" : String).data ∧
      ContentIndex.GetFileContent
        (ContentIndex.IndexFile ContentIndex.emptyContent "a/b.go" "hello" "Go") "a/b.go" =
        ("hello", true) :=
  ⟨by decide, claim_C4 ContentIndex.emptyContent "a/b.go" "hello" "Go" (by decide)⟩

/-- C8: the basename switch is only consulted for extensionless paths, so
`CMakeLists.txt` resolves through the extension table (`txt`) to `Text`, not
to `CMake` — the `cmakelists.txt` case of the switch is unreachable; the
extensionless basenames resolve case-insensitively and unknown inputs yield
the sentinel `Unknown`. -/
theorem claim_C8 :
    DetectLanguage "CMakeLists.txt" = "Text" ∧
    DetectLanguage "CMakeLists.txt" ≠ "CMake" ∧
    DetectLanguage "MAKEFILE" = "Makefile" ∧
    DetectLanguage "Dockerfile" = "Dockerfile" ∧
    DetectLanguage "Gemfile" = "Ruby" ∧
    DetectLanguage "Rakefile" = "Ruby" ∧
    DetectLanguage "noextension" = "Unknown" ∧
    DetectLanguage "file.zzz" = "Unknown" := by
  decide

/-- C10: the handler replaces a `contextLines` of exactly 0 by 2 before
querying the index, so the value reaching the index is never 0 from a zero
argument; the index's clamp yields an effective 0 exactly for negative
arguments. -/
theorem claim_C10 (args : SearchArgs) :
    ((searchArgsToOptions args).ContextLines ≠ 0) ∧
    (args.ContextLines = 0 → (searchArgsToOptions args).ContextLines = 2) ∧
    ((searchArgsToOptions args).ContextLines < 0 ↔ args.ContextLines < 0) ∧
    ((normalizeOptions (searchArgsToOptions args)).ContextLines = 0 ↔ args.ContextLines < 0) ∧
    (∀ m ci hits, args.Query ≠ "" → handleSearch m ci hits args =
      Except.ok (ContentIndex.Search m ci hits (searchArgsToOptions args))) := by
  refine ⟨?_, ?_, ?_, ?_, ?_⟩
  · simp only [searchArgsToOptions, handleContextLines]
    by_cases h : args.ContextLines = 0 <;> simp [h]
  · intro h
    simp [searchArgsToOptions, handleContextLines, h]
  · simp only [searchArgsToOptions, handleContextLines]
    by_cases h : args.ContextLines = 0
    · simp [h]
    · simp [h]
  · simp only [searchArgsToOptions, normalizeOptions, handleContextLines]
    by_cases h : args.ContextLines = 0
    · simp [h]
    · simp only [h, if_false]
      by_cases hneg : args.ContextLines < 0
      · simp [hneg]
      · simp [hneg]
        omega
  · intro m ci hits hq
    rw [handleSearch, if_neg hq]

/-- Witness for C10 at the zero (omitted-default) argument. -/
theorem claim_C10_witness :
    (searchArgsToOptions ⟨"q", "", "", 0, 0⟩).ContextLines = 2 ∧
    ((normalizeOptions (searchArgsToOptions ⟨"q", "", "", 0, 0⟩)).ContextLines = 0 ↔
      (0 : Int) < 0) ∧
    handleSearch (fun _ _ => some false) ContentIndex.emptyContent [] ⟨"q", "", "", 0, 0⟩ =
      Except.ok (ContentIndex.Search (fun _ _ => some false) ContentIndex.emptyContent []
        (searchArgsToOptions ⟨"q", "", "", 0, 0⟩)) :=
  ⟨(claim_C10 ⟨"q", "", "", 0, 0⟩).2.1 rfl,
   (claim_C10 ⟨"q", "", "", 0, 0⟩).2.2.2.1,
   (claim_C10 ⟨"q", "", "", 0, 0⟩).2.2.2.2 (fun _ _ => some false)
     ContentIndex.emptyContent [] (by decide)⟩

theorem normSlash_ne_empty {s : String} (h : s ≠ "") : normSlash s ≠ "" := by
  intro he
  apply h
  cases s with
  | mk d =>
    cases d with
    | nil => rfl
    | cons c cs =>
      exfalso
      rw [String.ext_iff] at he
      have h0 : ("" : String).data = [] := rfl
      rw [h0] at he
      exact List.cons_ne_nil _ _ he

theorem passFilters_filePath (m : String → String → Option Bool) {normFP : String}
    (g rp : String) (h : normFP ≠ "") :
    passFilters m normFP g rp = (rp == normFP) := by
  rw [passFilters, if_pos h]

theorem searchLoop_glob_irrelevant (m : String → String → Option Bool)
    (contents : List (String × String)) (q : String) (ctx : Int) {normFP : String}
    (g g' : String) (maxR : Int) (h : normFP ≠ "") (hits : List String)
    (acc : List (String × List LineMatch)) (total : Nat) :
    searchLoop m contents q ctx normFP g maxR hits acc total =
      searchLoop m contents q ctx normFP g' maxR hits acc total := by
  induction hits generalizing acc total with
  | nil => rfl
  | cons hit rest ih =>
    rw [searchLoop, searchLoop]
    rcases hc : alookup hit contents with _ | content
    · exact ih acc total
    · simp only [passFilters_filePath m g hit h, passFilters_filePath m g' hit h]
      by_cases hp : (hit == normFP) = true
      · simp only [hp, if_true]
        by_cases hlm : (findMatchingLines content q ctx).isEmpty = true
        · simp only [if_pos hlm]
          exact ih acc total
        · simp only [if_neg hlm]
          by_cases hstop :
              ((aAppendMatches hit (findMatchingLines content q ctx) acc).length : Int) ≥ maxR
          · simp only [if_pos hstop]
          · simp only [if_neg hstop]
            exact ih _ _
      · rw [Bool.not_eq_true] at hp
        simp only [hp, Bool.false_eq_true, if_false]
        exact ih acc total

theorem mem_aAppendMatches (k : String) (ms : List LineMatch)
    (l : List (String × List LineMatch)) :
    ∀ pr ∈ aAppendMatches k ms l, pr.1 = k ∨ pr.1 ∈ akeys l := by
  induction l with
  | nil =>
    intro pr hpr
    simp only [aAppendMatches, List.mem_singleton] at hpr
    subst hpr
    exact Or.inl rfl
  | cons hd tl ih =>
    obtain ⟨k', ms'⟩ := hd
    intro pr hpr
    by_cases hk : k' = k
    · subst hk
      simp only [aAppendMatches, eq_self_iff_true, if_true, List.mem_cons] at hpr
      cases hpr with
      | inl heq =>
        rw [heq]
        exact Or.inl rfl
      | inr htl =>
        exact Or.inr (by
          simp only [akeys, List.map_cons, List.mem_cons]
          exact Or.inr (List.mem_map_of_mem Prod.fst htl))
    · simp only [aAppendMatches, if_neg hk, List.mem_cons] at hpr
      cases hpr with
      | inl heq =>
        subst heq
        refine Or.inr ?_
        simp [akeys]
      | inr hpr2 =>
        rcases ih pr hpr2 with h | h
        · exact Or.inl h
        · refine Or.inr ?_
          simp only [akeys, List.map_cons, List.mem_cons]
          simp only [akeys] at h
          exact Or.inr h

theorem searchLoop_keys (m : String → String → Option Bool)
    (contents : List (String × String)) (q : String) (ctx : Int) {normFP : String}
    (g : String) (maxR : Int) (h : normFP ≠ "") (hits : List String)
    (acc : List (String × List LineMatch)) (total : Nat)
    (hacc : ∀ pr ∈ acc, pr.1 = normFP) :
    ∀ pr ∈ (searchLoop m contents q ctx normFP g maxR hits acc total).1, pr.1 = normFP := by
  induction hits generalizing acc total with
  | nil => exact hacc
  | cons hit rest ih =>
    rw [searchLoop]
    rcases hc : alookup hit contents with _ | content
    · exact ih acc total hacc
    · by_cases hp : passFilters m normFP g hit = true
      · simp only [hp, if_true]
        have hhit : hit = normFP := by
          rw [passFilters_filePath m g hit h] at hp
          exact eq_of_beq hp
        by_cases hlm : (findMatchingLines content q ctx).isEmpty = true
        · simp only [if_pos hlm]
          exact ih acc total hacc
        · simp only [if_neg hlm]
          have hacc' : ∀ pr ∈ aAppendMatches hit (findMatchingLines content q ctx) acc,
              pr.1 = normFP := by
            intro pr hpr
            rcases mem_aAppendMatches hit _ acc pr hpr with h1 | h1
            · rw [h1, hhit]
            · obtain ⟨pr', hpr', hfst⟩ := List.mem_map.mp h1
              rw [← hfst]
              exact hacc pr' hpr'
          by_cases hstop :
              ((aAppendMatches hit (findMatchingLines content q ctx) acc).length : Int) ≥ maxR
          · simp only [if_pos hstop]
            exact hacc'
          · simp only [if_neg hstop]
            exact ih _ _ hacc'
      · rw [Bool.not_eq_true] at hp
        simp only [hp, Bool.false_eq_true, if_false]
        exact ih acc total hacc

/-- C7: when `FilePath` is non-empty the glob filter is ignored — the search
result does not depend on `FileGlob` at all — the hit filter keeps a hit
exactly when its relative path equals the normalized `FilePath`, and every
returned file result carries that path. -/
theorem claim_C7 (m : String → String → Option Bool) (ci : ContentIndex)
    (hits : List String) (opts : SearchOptions) (g' : String)
    (h : opts.FilePath ≠ "") :
    (ContentIndex.Search m ci hits opts =
      ContentIndex.Search m ci hits { opts with FileGlob := g' }) ∧
    (∀ rp, passFilters m (normSlash opts.FilePath) opts.FileGlob rp =
      (rp == normSlash opts.FilePath)) ∧
    (∀ r ∈ (ContentIndex.Search m ci hits opts).1,
      r.RelativePath = normSlash opts.FilePath) := by
  have hne : normSlash opts.FilePath ≠ "" := normSlash_ne_empty h
  refine ⟨?_, ?_, ?_⟩
  · rw [ContentIndex.Search, ContentIndex.Search]
    simp only [normalizeOptions]
    rw [searchLoop_glob_irrelevant m ci.fileContents opts.Query
      (if opts.ContextLines < 0 then 0 else opts.ContextLines) opts.FileGlob g'
      (if opts.MaxResults ≤ 0 then 50 else opts.MaxResults) hne hits [] 0]
  · intro rp
    exact passFilters_filePath m opts.FileGlob rp hne
  · intro r hr
    rw [ContentIndex.Search] at hr
    simp only [normalizeOptions] at hr
    obtain ⟨pr, hpr, hmap⟩ := List.mem_map.mp hr
    have := searchLoop_keys m ci.fileContents opts.Query
      (if opts.ContextLines < 0 then 0 else opts.ContextLines) opts.FileGlob
      (if opts.MaxResults ≤ 0 then 50 else opts.MaxResults) hne hits [] 0
      (by intro pr' hpr'; cases hpr') pr hpr
    rw [← hmap]
    exact this

/-- Witness for C7: with both `FilePath` and `FileGlob` set, the glob is
ignored and the only returned file is the `FilePath` one. -/
theorem claim_C7_witness :
    (ContentIndex.Search globNever ciTwo ["a.go", "b.go"]
        ⟨"hello", "b.go", "**/*.go", 10, 0⟩ =
      ContentIndex.Search globNever ciTwo ["a.go", "b.go"]
        ⟨"hello", "b.go", "zzz", 10, 0⟩) ∧
    (∀ rp, passFilters globNever (normSlash "b.go") "**/*.go" rp =
      (rp == normSlash "b.go")) ∧
    (∀ r ∈ (ContentIndex.Search globNever ciTwo ["a.go", "b.go"]
        ⟨"hello", "b.go", "**/*.go", 10, 0⟩).1,
      r.RelativePath = normSlash "b.go") :=
  claim_C7 globNever ciTwo ["a.go", "b.go"] ⟨"hello", "b.go", "**/*.go", 10, 0⟩ "zzz"
    (by decide)

theorem alookup_mem {α : Type} {k : String} {v : α} {l : List (String × α)}
    (h : alookup k l = some v) : (k, v) ∈ l := by
  induction l with
  | nil => cases h
  | cons hd tl ih =>
    obtain ⟨k', v'⟩ := hd
    by_cases hk : k = k'
    · subst hk
      rw [alookup, if_pos rfl] at h
      cases h
      exact List.mem_cons_self _ _
    · rw [alookup, if_neg hk] at h
      exact List.mem_cons_of_mem _ (ih h)

theorem alookup_aAppendMatches_self (k : String) (new : List LineMatch)
    (l : List (String × List LineMatch)) :
    ∃ ms, alookup k (aAppendMatches k new l) = some ms ∧ ∀ x ∈ new, x ∈ ms := by
  induction l with
  | nil => exact ⟨new, by simp [aAppendMatches, alookup], fun x hx => hx⟩
  | cons hd tl ih =>
    obtain ⟨k', ms'⟩ := hd
    by_cases hk : k' = k
    · subst hk
      refine ⟨ms' ++ new, ?_, fun x hx => List.mem_append_right _ hx⟩
      simp [aAppendMatches, alookup]
    · obtain ⟨ms, h1, h2⟩ := ih
      refine ⟨ms, ?_, h2⟩
      rw [aAppendMatches, if_neg hk, alookup, if_neg (fun he => hk he.symm)]
      exact h1

theorem alookup_aAppendMatches_preserve {k : String} (k2 : String) (new : List LineMatch)
    (l : List (String × List LineMatch)) {ms : List LineMatch}
    (h : alookup k l = some ms) :
    ∃ ms', alookup k (aAppendMatches k2 new l) = some ms' ∧ ∀ x ∈ ms, x ∈ ms' := by
  induction l with
  | nil => cases h
  | cons hd tl ih =>
    obtain ⟨k', ms0⟩ := hd
    by_cases hk2 : k' = k2
    · subst hk2
      by_cases hk : k = k'
      · subst hk
        rw [alookup, if_pos rfl] at h
        cases h
        refine ⟨ms ++ new, ?_, fun x hx => List.mem_append_left _ hx⟩
        simp [aAppendMatches, alookup]
      · rw [alookup, if_neg hk] at h
        refine ⟨ms, ?_, fun x hx => hx⟩
        rw [aAppendMatches, if_pos rfl, alookup, if_neg hk]
        exact h
    · by_cases hk : k = k'
      · subst hk
        rw [alookup, if_pos rfl] at h
        cases h
        refine ⟨ms, ?_, fun x hx => hx⟩
        rw [aAppendMatches, if_neg hk2, alookup, if_pos rfl]
      · rw [alookup, if_neg hk] at h
        obtain ⟨ms', h1, h2⟩ := ih h
        refine ⟨ms', ?_, h2⟩
        rw [aAppendMatches, if_neg hk2, alookup, if_neg hk]
        exact h1

theorem length_aAppendMatches (k : String) (new : List LineMatch)
    (l : List (String × List LineMatch)) :
    (aAppendMatches k new l).length ≤ l.length + 1 := by
  induction l with
  | nil => simp [aAppendMatches]
  | cons hd tl ih =>
    obtain ⟨k', ms'⟩ := hd
    by_cases hk : k' = k
    · simp [aAppendMatches, hk]
    · simp only [aAppendMatches, if_neg hk, List.length_cons]
      omega

theorem fmlAux_mem (lines : List String) (term : String) (ctx : Int) :
    ∀ (l : List String) (i j : Nat) (line : String),
      l.get? j = some line → containsSubstr (toLowerStr line) term = true →
      ∃ mt ∈ fmlAux lines term ctx i l, mt.LineNumber = i + j + 1 := by
  intro l
  induction l with
  | nil => intro i j line hget; cases hget
  | cons hd tlL ihl =>
    intro i j line hget hsub
    cases j with
    | zero =>
      rw [List.get?_cons_zero] at hget
      cases hget
      refine ⟨mkLineMatch lines ctx i hd, ?_, rfl⟩
      rw [fmlAux, if_pos hsub]
      exact List.mem_append_left _ (List.mem_singleton_self _)
    | succ j' =>
      rw [List.get?_cons_succ] at hget
      obtain ⟨mt, hmem, hnum⟩ := ihl (i + 1) j' line hget hsub
      refine ⟨mt, ?_, by omega⟩
      rw [fmlAux]
      exact List.mem_append_right _ hmem

theorem findMatchingLines_mem {c q : String} (ctx : Int) {idx : Nat} {line : String}
    (hline : (splitLines c).get? idx = some line)
    (hsub : containsSubstr (toLowerStr line) (toLowerStr (extractSearchTerm q)) = true) :
    ∃ mt ∈ findMatchingLines c q ctx, mt.LineNumber = idx + 1 := by
  obtain ⟨mt, hmem, hnum⟩ :=
    fmlAux_mem (splitLines c) (toLowerStr (extractSearchTerm q)) ctx (splitLines c) 0 idx
      line hline hsub
  exact ⟨mt, hmem, by omega⟩

theorem findMatchingLines_not_isEmpty {c q : String} (ctx : Int) {idx : Nat} {line : String}
    (hline : (splitLines c).get? idx = some line)
    (hsub : containsSubstr (toLowerStr line) (toLowerStr (extractSearchTerm q)) = true) :
    ¬ (findMatchingLines c q ctx).isEmpty = true := by
  obtain ⟨mt, hmem, _⟩ := findMatchingLines_mem ctx hline hsub
  intro he
  rw [List.isEmpty_iff] at he
  rw [he] at hmem
  cases hmem

theorem searchLoop_reaches (m : String → String → Option Bool)
    (contents : List (String × String)) (q : String) (ctx : Int) (normFP glob : String)
    (maxR : Int) (p c : String) (hc : alookup p contents = some c)
    (hpass : passFilters m normFP glob p = true)
    (hfm : ¬ (findMatchingLines c q ctx).isEmpty = true) :
    ∀ (hits : List String) (acc : List (String × List LineMatch)) (total : Nat),
      (acc.length : Int) + hits.length ≤ maxR →
      (p ∈ hits ∨ ∃ ms, alookup p acc = some ms ∧
        ∀ mt ∈ findMatchingLines c q ctx, mt ∈ ms) →
      ∃ ms,
        alookup p (searchLoop m contents q ctx normFP glob maxR hits acc total).1 = some ms ∧
        ∀ mt ∈ findMatchingLines c q ctx, mt ∈ ms := by
  intro hits
  induction hits with
  | nil =>
    intro acc total _ hd
    rcases hd with hmem | hd
    · cases hmem
    · exact hd
  | cons hit rest ih =>
    intro acc total hb hd
    have hb' : (acc.length : Int) + rest.length ≤ maxR := by
      rw [List.length_cons] at hb
      push_cast at hb ⊢
      omega
    rw [searchLoop]
    rcases hcl : alookup hit contents with _ | content
    · have hne : p ≠ hit := fun he => by rw [← he, hc] at hcl; cases hcl
      refine ih acc total hb' ?_
      rcases hd with hmem | hd
      · rcases List.mem_cons.mp hmem with he | hmem
        · exact absurd he hne
        · exact Or.inl hmem
      · exact Or.inr hd
    · by_cases hp : passFilters m normFP glob hit = true
      · simp only [hp, if_true]
        by_cases hlm : (findMatchingLines content q ctx).isEmpty = true
        · simp only [if_pos hlm]
          have hne : p ≠ hit := fun he => by
            rw [← he, hc] at hcl
            cases hcl
            exact hfm hlm
          refine ih acc total hb' ?_
          rcases hd with hmem | hd
          · rcases List.mem_cons.mp hmem with he | hmem
            · exact absurd he hne
            · exact Or.inl hmem
          · exact Or.inr hd
        · simp only [if_neg hlm]
          have hlen : ((aAppendMatches hit (findMatchingLines content q ctx) acc).length : Int)
              ≤ (acc.length : Int) + 1 := by
            have := length_aAppendMatches hit (findMatchingLines content q ctx) acc
            omega
          have hnext : (∃ ms,
              alookup p (aAppendMatches hit (findMatchingLines content q ctx) acc) = some ms ∧
              ∀ mt ∈ findMatchingLines c q ctx, mt ∈ ms) ∨
              (p ≠ hit ∧ (p ∈ rest ∨ ∃ ms, alookup p acc = some ms ∧
                ∀ mt ∈ findMatchingLines c q ctx, mt ∈ ms)) := by
            by_cases he : p = hit
            · subst he
              rw [hc] at hcl
              cases hcl
              exact Or.inl (alookup_aAppendMatches_self p (findMatchingLines c q ctx) acc)
            · refine Or.inr ⟨he, ?_⟩
              rcases hd with hmem | hd
              · rcases List.mem_cons.mp hmem with h1 | hmem
                · exact absurd h1 he
                · exact Or.inl hmem
              · exact Or.inr hd
          by_cases hstop : ((aAppendMatches hit (findMatchingLines content q ctx) acc).length :
              Int) ≥ maxR
          · simp only [if_pos hstop]
            rcases hnext with hin | ⟨hne, hrest⟩
            · exact hin
            · have hrest0 : (rest.length : Int) ≤ 0 := by
                rw [List.length_cons] at hb
                push_cast at hb hlen hstop ⊢
                omega
              have hrestnil : rest = [] := by
                cases rest with
                | nil => rfl
                | cons a b => simp at hrest0; omega
              rcases hrest with hmem | hd2
              · rw [hrestnil] at hmem
                cases hmem
              · obtain ⟨ms, h1, h2⟩ := hd2
                obtain ⟨ms', h1', h2'⟩ :=
                  alookup_aAppendMatches_preserve hit (findMatchingLines content q ctx) acc h1
                exact ⟨ms', h1', fun mt hmt => h2' mt (h2 mt hmt)⟩
          · simp only [if_neg hstop]
            refine ih (aAppendMatches hit (findMatchingLines content q ctx) acc) _ ?_ ?_
            · rw [List.length_cons] at hb
              push_cast at hb hlen ⊢
              omega
            · rcases hnext with hin | ⟨_, hrest⟩
              · exact Or.inr hin
              · rcases hrest with hmem | hd2
                · exact Or.inl hmem
                · obtain ⟨ms, h1, h2⟩ := hd2
                  obtain ⟨ms', h1', h2'⟩ :=
                    alookup_aAppendMatches_preserve hit (findMatchingLines content q ctx) acc h1
                  exact Or.inr ⟨ms', h1', fun mt hmt => h2' mt (h2 mt hmt)⟩
      · rw [Bool.not_eq_true] at hp
        simp only [hp, Bool.false_eq_true, if_false]
        have hne : p ≠ hit := fun he => by
          rw [← he, hpass] at hp
          cases hp
        refine ih acc total hb' ?_
        rcases hd with hmem | hd
        · rcases List.mem_cons.mp hmem with he | hmem
          · exact absurd he hne
          · exact Or.inl hmem
        · exact Or.inr hd

/-- C5 counterexample: both indexed files contain the word query `hello` on
line 1, the inverted structure returns both as hits, yet with
`max_results = 1` the search stops after the first file, so no line match is
returned for `b.go` — the claim as stated fails without a window proviso. -/
theorem claim_C5_cex :
    isWordQuery "hello" = true ∧
    alookup "b.go" ciTwo.fileContents = some "hello" ∧
    (splitLines "hello").get? 0 = some "hello" ∧
    containsSubstr (toLowerStr "hello") (toLowerStr (extractSearchTerm "hello")) = true ∧
    "b.go" ∈ ["a.go", "b.go"] ∧
    ¬ ∃ r ∈ (ContentIndex.Search globNever ciTwo ["a.go", "b.go"]
        ⟨"hello", "", "", 1, 0⟩).1,
      r.RelativePath = "b.go" ∧ ∃ mt ∈ r.Matches, mt.LineNumber = 1 := by
  decide

/-- C5 (amended): for every indexed file whose stored content contains the
word-level query case-insensitively on 1-based line `idx + 1`, a content
search with no path or glob filter returns a line match for that file with
line number `idx + 1`, provided the file is among the hits the (external)
inverted structure returned and the hit list fits inside the `max_results`
window. -/
theorem claim_C5 (m : String → String → Option Bool) (ci : ContentIndex)
    (hits : List String) (opts : SearchOptions) (p c line : String) (idx : Nat)
    (hfile : alookup p ci.fileContents = some c)
    (hhit : p ∈ hits)
    (hfp : opts.FilePath = "") (hfg : opts.FileGlob = "")
    (_hword : isWordQuery opts.Query = true)
    (hline : (splitLines c).get? idx = some line)
    (hsub : containsSubstr (toLowerStr line) (toLowerStr (extractSearchTerm opts.Query)) = true)
    (hwin : (hits.length : Int) ≤ (normalizeOptions opts).MaxResults) :
    ∃ r ∈ (ContentIndex.Search m ci hits opts).1,
      r.RelativePath = p ∧ ∃ mt ∈ r.Matches, mt.LineNumber = idx + 1 := by
  have hpass : passFilters m (normSlash (normalizeOptions opts).FilePath)
      (normalizeOptions opts).FileGlob p = true := by
    have hfp' : (normalizeOptions opts).FilePath = "" := by
      simp [normalizeOptions, hfp]
    have hfg' : (normalizeOptions opts).FileGlob = "" := by
      simp [normalizeOptions, hfg]
    rw [hfp', hfg']
    rfl
  have hfm : ¬ (findMatchingLines c (normalizeOptions opts).Query
      (normalizeOptions opts).ContextLines).isEmpty = true := by
    have hq : (normalizeOptions opts).Query = opts.Query := by simp [normalizeOptions]
    rw [hq]
    exact findMatchingLines_not_isEmpty _ hline hsub
  obtain ⟨ms, hms, hsubms⟩ :=
    searchLoop_reaches m ci.fileContents (normalizeOptions opts).Query
      (normalizeOptions opts).ContextLines (normSlash (normalizeOptions opts).FilePath)
      (normalizeOptions opts).FileGlob (normalizeOptions opts).MaxResults p c hfile hpass hfm
      hits [] 0 (by simpa using hwin) (Or.inl hhit)
  have hq : (normalizeOptions opts).Query = opts.Query := by simp [normalizeOptions]
  obtain ⟨mt, hmt, hnum⟩ := findMatchingLines_mem (normalizeOptions opts).ContextLines
    hline hsub
  refine ⟨⟨p, ms⟩, ?_, rfl, mt, ?_, hnum⟩
  · rw [ContentIndex.Search]
    exact List.mem_map_of_mem _ (alookup_mem hms)
  · refine hsubms mt ?_
    rw [hq]
    exact hmt

/-- Witness for C5: with a window large enough for both hits, the `b.go` line
match is returned. -/
theorem claim_C5_witness :
    ∃ r ∈ (ContentIndex.Search globNever ciTwo ["a.go", "b.go"]
        ⟨"hello", "", "", 10, 0⟩).1,
      r.RelativePath = "b.go" ∧ ∃ mt ∈ r.Matches, mt.LineNumber = 0 + 1 :=
  claim_C5 globNever ciTwo ["a.go", "b.go"] ⟨"hello", "", "", 10, 0⟩ "b.go" "hello" "hello" 0
    (by decide) (by decide) rfl rfl (by decide) (by decide) (by decide) (by decide)

theorem mem_syncStep3_missing (ingest : String → Option (String × String))
    (idxSet : List (String × IndexedFile)) :
    ∀ (disk : List (String × FileInfoM)) (fi : FileIndex) (ci : ContentIndex) (p : String),
      p ∈ (syncStep3 ingest idxSet disk fi ci).2.2 ↔
        ∃ info, (p, info) ∈ disk ∧ alookup p idxSet = none := by
  intro disk
  induction disk with
  | nil =>
    intro fi ci p
    simp [syncStep3]
  | cons hd rest ih =>
    obtain ⟨relPath, info⟩ := hd
    intro fi ci p
    rw [syncStep3]
    by_cases hx : (alookup relPath idxSet).isSome
    · simp only [hx, if_true]
      rw [ih fi ci p]
      constructor
      · rintro ⟨info', h1, h2⟩
        exact ⟨info', List.mem_cons_of_mem _ h1, h2⟩
      · rintro ⟨info', h1, h2⟩
        rcases List.mem_cons.mp h1 with he | h1
        · exfalso
          cases he
          rw [h2] at hx
          cases hx
        · exact ⟨info', h1, h2⟩
    · have hxn : alookup relPath idxSet = none := Option.not_isSome_iff_eq_none.mp hx
      simp only [hx, Bool.false_eq_true, if_false]
      have hgoal : ∀ fi2 ci2,
          p ∈ relPath :: (syncStep3 ingest idxSet rest fi2 ci2).2.2 ↔
            ∃ info', (p, info') ∈ (relPath, info) :: rest ∧ alookup p idxSet = none := by
        intro fi2 ci2
        rw [List.mem_cons, ih fi2 ci2 p]
        constructor
        · rintro (rfl | ⟨info', h1, h2⟩)
          · exact ⟨info, List.mem_cons_self _ _, hxn⟩
          · exact ⟨info', List.mem_cons_of_mem _ h1, h2⟩
        · rintro ⟨info', h1, h2⟩
          rcases List.mem_cons.mp h1 with he | h1
          · cases he
            exact Or.inl rfl
          · exact Or.inr ⟨info', h1, h2⟩
      rcases hing : indexSingleFileM ingest relPath info fi ci with _ | ⟨fi2, ci2⟩
      · exact hgoal fi ci
      · exact hgoal fi2 ci2

theorem mem_syncStep4_stale (diskMap : List (String × FileInfoM)) :
    ∀ (idxList : List (String × IndexedFile)) (fi : FileIndex) (ci : ContentIndex) (p : String),
      p ∈ (syncStep4 diskMap idxList fi ci).2.2 ↔
        ∃ v, (p, v) ∈ idxList ∧ alookup p diskMap = none := by
  intro idxList
  induction idxList with
  | nil =>
    intro fi ci p
    simp [syncStep4]
  | cons hd rest ih =>
    obtain ⟨relPath, v⟩ := hd
    intro fi ci p
    rw [syncStep4]
    by_cases hx : (alookup relPath diskMap).isSome
    · simp only [hx, if_true]
      rw [ih fi ci p]
      constructor
      · rintro ⟨v', h1, h2⟩
        exact ⟨v', List.mem_cons_of_mem _ h1, h2⟩
      · rintro ⟨v', h1, h2⟩
        rcases List.mem_cons.mp h1 with he | h1
        · exfalso
          cases he
          rw [h2] at hx
          cases hx
        · exact ⟨v', h1, h2⟩
    · have hxn : alookup relPath diskMap = none := Option.not_isSome_iff_eq_none.mp hx
      simp only [hx, Bool.false_eq_true, if_false]
      rw [List.mem_cons, ih (fi.RemoveFile relPath) (ci.RemoveFile relPath) p]
      constructor
      · rintro (rfl | ⟨v', h1, h2⟩)
        · exact ⟨v, List.mem_cons_self _ _, hxn⟩
        · exact ⟨v', List.mem_cons_of_mem _ h1, h2⟩
      · rintro ⟨v', h1, h2⟩
        rcases List.mem_cons.mp h1 with he | h1
        · cases he
          exact Or.inl rfl
        · exact Or.inr ⟨v', h1, h2⟩

theorem mem_syncStep5_modified (ingest : String → Option (String × String))
    (idxSet : List (String × IndexedFile)) :
    ∀ (disk : List (String × FileInfoM)) (fi : FileIndex) (ci : ContentIndex) (p : String),
      p ∈ (syncStep5 ingest idxSet disk fi ci).2.2 ↔
        ∃ info ix, (p, info) ∈ disk ∧ alookup p idxSet = some ix ∧
          info.modTime ≠ ix.ModTime := by
  intro disk
  induction disk with
  | nil =>
    intro fi ci p
    simp [syncStep5]
  | cons hd rest ih =>
    obtain ⟨relPath, info⟩ := hd
    intro fi ci p
    rcases hx : alookup relPath idxSet with _ | ix
    · have hstep : syncStep5 ingest idxSet ((relPath, info) :: rest) fi ci =
          syncStep5 ingest idxSet rest fi ci := by
        rw [syncStep5, hx]
      rw [hstep, ih fi ci p]
      constructor
      · rintro ⟨info', ix', h1, h2, h3⟩
        exact ⟨info', ix', List.mem_cons_of_mem _ h1, h2, h3⟩
      · rintro ⟨info', ix', h1, h2, h3⟩
        rcases List.mem_cons.mp h1 with he | h1
        · exfalso
          cases he
          rw [h2] at hx
          cases hx
        · exact ⟨info', ix', h1, h2, h3⟩
    · have hstep : syncStep5 ingest idxSet ((relPath, info) :: rest) fi ci =
          (if info.modTime = ix.ModTime then syncStep5 ingest idxSet rest fi ci
           else
             match indexSingleFileM ingest relPath info fi ci with
             | none =>
               ((syncStep5 ingest idxSet rest fi ci).1,
                 (syncStep5 ingest idxSet rest fi ci).2.1,
                 relPath :: (syncStep5 ingest idxSet rest fi ci).2.2)
             | some (fi2, ci2) =>
               ((syncStep5 ingest idxSet rest fi2 ci2).1,
                 (syncStep5 ingest idxSet rest fi2 ci2).2.1,
                 relPath :: (syncStep5 ingest idxSet rest fi2 ci2).2.2)) := by
        rw [syncStep5, hx]
      by_cases hmt : info.modTime = ix.ModTime
      · rw [hstep, if_pos hmt, ih fi ci p]
        constructor
        · rintro ⟨info', ix', h1, h2, h3⟩
          exact ⟨info', ix', List.mem_cons_of_mem _ h1, h2, h3⟩
        · rintro ⟨info', ix', h1, h2, h3⟩
          rcases List.mem_cons.mp h1 with he | h1
          · exfalso
            cases he
            rw [h2] at hx
            cases hx
            exact h3 hmt
          · exact ⟨info', ix', h1, h2, h3⟩
      · rw [hstep, if_neg hmt]
        have hgoal : ∀ fi2 ci2,
            p ∈ relPath :: (syncStep5 ingest idxSet rest fi2 ci2).2.2 ↔
              ∃ info' ix', (p, info') ∈ (relPath, info) :: rest ∧
                alookup p idxSet = some ix' ∧ info'.modTime ≠ ix'.ModTime := by
          intro fi2 ci2
          rw [List.mem_cons, ih fi2 ci2 p]
          constructor
          · rintro (rfl | ⟨info', ix', h1, h2, h3⟩)
            · exact ⟨info, ix, List.mem_cons_self _ _, hx, hmt⟩
            · exact ⟨info', ix', List.mem_cons_of_mem _ h1, h2, h3⟩
          · rintro ⟨info', ix', h1, h2, h3⟩
            rcases List.mem_cons.mp h1 with he | h1
            · cases he
              exact Or.inl rfl
            · exact Or.inr ⟨info', ix', h1, h2, h3⟩
        rcases hing : indexSingleFileM ingest relPath info fi ci with _ | ⟨fi2, ci2⟩
        · exact hgoal fi ci
        · exact hgoal fi2 ci2

theorem alookup_none_aerase {α : Type} {p : String} (k : String) {l : List (String × α)}
    (h : alookup p l = none) : alookup p (aerase k l) = none := by
  cases hs : alookup p (aerase k l) with
  | none => rfl
  | some v =>
    exfalso
    have hmem : p ∈ akeys (aerase k l) :=
      (alookup_isSome_iff_mem_akeys _ _).mp (by rw [hs]; rfl)
    have hmem2 : p ∈ akeys l := (akeys_aerase_sublist k l).subset hmem
    have := (alookup_isSome_iff_mem_akeys p l).mpr hmem2
    rw [h] at this
    cases this

theorem FileIndex.addFile_files (fi : FileIndex) (f : IndexedFile) :
    (fi.AddFile f).files = aset f.RelativePath f fi.files := by
  by_cases h : (alookup f.RelativePath fi.files).isSome
  · simp [FileIndex.AddFile, h]
  · simp [FileIndex.AddFile, h]

theorem FileIndex.addFile_lookup_ne {fi : FileIndex} {f : IndexedFile} {p : String}
    (h : p ≠ f.RelativePath) :
    alookup p (fi.AddFile f).files = alookup p fi.files := by
  rw [FileIndex.addFile_files]
  exact alookup_aset_ne _ _ h

theorem FileIndex.addFile_nodup {fi : FileIndex} (hnd : (akeys fi.files).Nodup)
    (f : IndexedFile) : (akeys (fi.AddFile f).files).Nodup := by
  rw [FileIndex.addFile_files]
  exact nodup_akeys_aset _ _ _ hnd

theorem FileIndex.removeFile_files_none {fi : FileIndex} (hnd : (akeys fi.files).Nodup)
    (k : String) : alookup k (fi.RemoveFile k).files = none := by
  by_cases h : (alookup k fi.files).isSome
  · rw [FileIndex.RemoveFile, if_pos h]
    exact alookup_aerase_self k fi.files hnd
  · rw [FileIndex.removeFile_missing (Option.not_isSome_iff_eq_none.mp h)]
    exact Option.not_isSome_iff_eq_none.mp h

theorem FileIndex.removeFile_preserve_none {fi : FileIndex} {p : String} (k : String)
    (h : alookup p fi.files = none) : alookup p (fi.RemoveFile k).files = none := by
  by_cases hs : (alookup k fi.files).isSome
  · rw [FileIndex.RemoveFile, if_pos hs]
    exact alookup_none_aerase k h
  · rw [FileIndex.removeFile_missing (Option.not_isSome_iff_eq_none.mp hs)]
    exact h

theorem FileIndex.removeFile_nodup {fi : FileIndex} (hnd : (akeys fi.files).Nodup)
    (k : String) : (akeys (fi.RemoveFile k).files).Nodup := by
  by_cases hs : (alookup k fi.files).isSome
  · rw [FileIndex.RemoveFile, if_pos hs]
    exact nodup_akeys_aerase _ _ hnd
  · rw [FileIndex.removeFile_missing (Option.not_isSome_iff_eq_none.mp hs)]
    exact hnd

theorem syncStep3_nodup (ingest : String → Option (String × String))
    (idxSet : List (String × IndexedFile)) :
    ∀ (disk : List (String × FileInfoM)) (fi : FileIndex) (ci : ContentIndex),
      (akeys fi.files).Nodup → (akeys ci.fileContents).Nodup →
      (akeys (syncStep3 ingest idxSet disk fi ci).1.files).Nodup ∧
      (akeys (syncStep3 ingest idxSet disk fi ci).2.1.fileContents).Nodup := by
  intro disk
  induction disk with
  | nil => intro fi ci hf hc; exact ⟨hf, hc⟩
  | cons hd rest ih =>
    obtain ⟨relPath, info⟩ := hd
    intro fi ci hf hc
    rw [syncStep3]
    by_cases hx : (alookup relPath idxSet).isSome
    · simp only [hx, if_true]
      exact ih fi ci hf hc
    · simp only [hx, Bool.false_eq_true, if_false]
      rcases hing : ingest relPath with _ | ⟨content, lang⟩
      · have hm : indexSingleFileM ingest relPath info fi ci = none := by
          rw [indexSingleFileM, hing]
        rw [hm]
        exact ih fi ci hf hc
      · have hm : indexSingleFileM ingest relPath info fi ci =
            some (fi.AddFile ⟨relPath, relPath, lang, info.size, info.modTime,
              countLines content⟩, ci.IndexFile relPath content lang) := by
          rw [indexSingleFileM, hing]
        rw [hm]
        exact ih _ _ (FileIndex.addFile_nodup hf _) (nodup_akeys_aset _ _ _ hc)

theorem syncStep4_nodup (diskMap : List (String × FileInfoM)) :
    ∀ (idxList : List (String × IndexedFile)) (fi : FileIndex) (ci : ContentIndex),
      (akeys fi.files).Nodup → (akeys ci.fileContents).Nodup →
      (akeys (syncStep4 diskMap idxList fi ci).1.files).Nodup ∧
      (akeys (syncStep4 diskMap idxList fi ci).2.1.fileContents).Nodup := by
  intro idxList
  induction idxList with
  | nil => intro fi ci hf hc; exact ⟨hf, hc⟩
  | cons hd rest ih =>
    obtain ⟨relPath, v⟩ := hd
    intro fi ci hf hc
    rw [syncStep4]
    by_cases hx : (alookup relPath diskMap).isSome
    · simp only [hx, if_true]
      exact ih fi ci hf hc
    · simp only [hx, Bool.false_eq_true, if_false]
      exact ih _ _ (FileIndex.removeFile_nodup hf _) (nodup_akeys_aerase _ _ hc)

theorem syncStep4_preserve_none (diskMap : List (String × FileInfoM)) :
    ∀ (idxList : List (String × IndexedFile)) (fi : FileIndex) (ci : ContentIndex) (p : String),
      alookup p fi.files = none → alookup p ci.fileContents = none →
      alookup p (syncStep4 diskMap idxList fi ci).1.files = none ∧
      alookup p (syncStep4 diskMap idxList fi ci).2.1.fileContents = none := by
  intro idxList
  induction idxList with
  | nil => intro fi ci p hf hc; exact ⟨hf, hc⟩
  | cons hd rest ih =>
    obtain ⟨relPath, v⟩ := hd
    intro fi ci p hf hc
    rw [syncStep4]
    by_cases hx : (alookup relPath diskMap).isSome
    · simp only [hx, if_true]
      exact ih fi ci p hf hc
    · simp only [hx, Bool.false_eq_true, if_false]
      exact ih _ _ p (FileIndex.removeFile_preserve_none _ hf) (alookup_none_aerase _ hc)

theorem syncStep4_stale_none (diskMap : List (String × FileInfoM)) :
    ∀ (idxList : List (String × IndexedFile)) (fi : FileIndex) (ci : ContentIndex),
      (akeys fi.files).Nodup → (akeys ci.fileContents).Nodup →
      ∀ p ∈ (syncStep4 diskMap idxList fi ci).2.2,
        alookup p (syncStep4 diskMap idxList fi ci).1.files = none ∧
        alookup p (syncStep4 diskMap idxList fi ci).2.1.fileContents = none := by
  intro idxList
  induction idxList with
  | nil =>
    intro fi ci _ _ p hp
    cases hp
  | cons hd rest ih =>
    obtain ⟨relPath, v⟩ := hd
    intro fi ci hf hc p hp
    rw [syncStep4] at hp ⊢
    by_cases hx : (alookup relPath diskMap).isSome
    · simp only [hx, if_true] at hp ⊢
      exact ih fi ci hf hc p hp
    · simp only [hx, Bool.false_eq_true, if_false] at hp ⊢
      rcases List.mem_cons.mp hp with rfl | hp
      · exact syncStep4_preserve_none diskMap rest _ _ p
          (FileIndex.removeFile_files_none hf p)
          (alookup_aerase_self p ci.fileContents hc)
      · exact ih _ _ (FileIndex.removeFile_nodup hf _) (nodup_akeys_aerase _ _ hc) p hp

theorem syncStep5_preserve_none (ingest : String → Option (String × String))
    (idxSet : List (String × IndexedFile)) :
    ∀ (ds : List (String × FileInfoM)) (fi : FileIndex) (ci : ContentIndex) (p : String),
      (∀ pr ∈ ds, pr.1 ≠ p) →
      alookup p fi.files = none → alookup p ci.fileContents = none →
      alookup p (syncStep5 ingest idxSet ds fi ci).1.files = none ∧
      alookup p (syncStep5 ingest idxSet ds fi ci).2.1.fileContents = none := by
  intro ds
  induction ds with
  | nil => intro fi ci p _ hf hc; exact ⟨hf, hc⟩
  | cons hd rest ih =>
    obtain ⟨relPath, info⟩ := hd
    intro fi ci p hne hf hc
    have hnp : relPath ≠ p := hne (relPath, info) (List.mem_cons_self _ _)
    have hne' : ∀ pr ∈ rest, pr.1 ≠ p := fun pr hpr => hne pr (List.mem_cons_of_mem _ hpr)
    rcases hx : alookup relPath idxSet with _ | ix
    · have hstep : syncStep5 ingest idxSet ((relPath, info) :: rest) fi ci =
          syncStep5 ingest idxSet rest fi ci := by
        rw [syncStep5, hx]
      rw [hstep]
      exact ih fi ci p hne' hf hc
    · have hstep0 : syncStep5 ingest idxSet ((relPath, info) :: rest) fi ci =
          (if info.modTime = ix.ModTime then syncStep5 ingest idxSet rest fi ci
           else
             match indexSingleFileM ingest relPath info fi ci with
             | none =>
               ((syncStep5 ingest idxSet rest fi ci).1,
                 (syncStep5 ingest idxSet rest fi ci).2.1,
                 relPath :: (syncStep5 ingest idxSet rest fi ci).2.2)
             | some (fi2, ci2) =>
               ((syncStep5 ingest idxSet rest fi2 ci2).1,
                 (syncStep5 ingest idxSet rest fi2 ci2).2.1,
                 relPath :: (syncStep5 ingest idxSet rest fi2 ci2).2.2)) := by
        rw [syncStep5, hx]
      by_cases hmt : info.modTime = ix.ModTime
      · rw [hstep0, if_pos hmt]
        exact ih fi ci p hne' hf hc
      · rw [hstep0, if_neg hmt]
        rcases hing : ingest relPath with _ | ⟨content, lang⟩
        · have hm : indexSingleFileM ingest relPath info fi ci = none := by
            rw [indexSingleFileM, hing]
          rw [hm]
          exact ih fi ci p hne' hf hc
        · have hm : indexSingleFileM ingest relPath info fi ci =
              some (fi.AddFile ⟨relPath, relPath, lang, info.size, info.modTime,
                countLines content⟩, ci.IndexFile relPath content lang) := by
            rw [indexSingleFileM, hing]
          rw [hm]
          have hf2 : alookup p (fi.AddFile ⟨relPath, relPath, lang, info.size, info.modTime,
              countLines content⟩).files = none := by
            rw [FileIndex.addFile_lookup_ne (fun he => hnp he.symm)]
            exact hf
          have hc2 : alookup p (ci.IndexFile relPath content lang).fileContents = none := by
            rw [ContentIndex.IndexFile]
            exact (alookup_aset_ne _ _ (fun he => hnp he.symm)).trans hc
          exact ih (fi.AddFile ⟨relPath, relPath, lang, info.size, info.modTime,
            countLines content⟩) (ci.IndexFile relPath content lang) p hne' hf2 hc2

/-- C9: one sync verification computes missing = disk minus index snapshot,
stale = index snapshot minus disk, and modified = both with strictly unequal
modification timestamps; the three sets are pairwise disjoint, every missing
and modified path is handed to `index_single_file`, and every stale path ends
up absent from both the file-path index and the content index. -/
theorem claim_C9 (ingest : String → Option (String × String))
    (disk : List (String × FileInfoM)) (fi : FileIndex) (ci : ContentIndex)
    (hf : (akeys fi.files).Nodup) (hc : (akeys ci.fileContents).Nodup) :
    (∀ p, p ∈ (performSyncVerification ingest disk fi ci).missing ↔
      ∃ info, (p, info) ∈ disk ∧ alookup p (buildIndexedSet fi.AllFiles) = none) ∧
    (∀ p, p ∈ (performSyncVerification ingest disk fi ci).stale ↔
      ∃ v, (p, v) ∈ buildIndexedSet fi.AllFiles ∧ alookup p disk = none) ∧
    (∀ p, p ∈ (performSyncVerification ingest disk fi ci).modified ↔
      ∃ info ix, (p, info) ∈ disk ∧ alookup p (buildIndexedSet fi.AllFiles) = some ix ∧
        info.modTime ≠ ix.ModTime) ∧
    (∀ p, ¬(p ∈ (performSyncVerification ingest disk fi ci).missing ∧
      p ∈ (performSyncVerification ingest disk fi ci).stale)) ∧
    (∀ p, ¬(p ∈ (performSyncVerification ingest disk fi ci).missing ∧
      p ∈ (performSyncVerification ingest disk fi ci).modified)) ∧
    (∀ p, ¬(p ∈ (performSyncVerification ingest disk fi ci).stale ∧
      p ∈ (performSyncVerification ingest disk fi ci).modified)) ∧
    (∀ p ∈ (performSyncVerification ingest disk fi ci).stale,
      alookup p (performSyncVerification ingest disk fi ci).fi.files = none ∧
      alookup p (performSyncVerification ingest disk fi ci).ci.fileContents = none) := by
  have hmiss : ∀ p, p ∈ (performSyncVerification ingest disk fi ci).missing ↔
      ∃ info, (p, info) ∈ disk ∧ alookup p (buildIndexedSet fi.AllFiles) = none :=
    fun p => mem_syncStep3_missing ingest (buildIndexedSet fi.AllFiles) disk fi ci p
  have hstale : ∀ p, p ∈ (performSyncVerification ingest disk fi ci).stale ↔
      ∃ v, (p, v) ∈ buildIndexedSet fi.AllFiles ∧ alookup p disk = none :=
    fun p => mem_syncStep4_stale disk (buildIndexedSet fi.AllFiles)
      (syncStep3 ingest (buildIndexedSet fi.AllFiles) disk fi ci).1
      (syncStep3 ingest (buildIndexedSet fi.AllFiles) disk fi ci).2.1 p
  have hmod : ∀ p, p ∈ (performSyncVerification ingest disk fi ci).modified ↔
      ∃ info ix, (p, info) ∈ disk ∧ alookup p (buildIndexedSet fi.AllFiles) = some ix ∧
        info.modTime ≠ ix.ModTime :=
    fun p => mem_syncStep5_modified ingest (buildIndexedSet fi.AllFiles) disk
      (syncStep4 disk (buildIndexedSet fi.AllFiles)
        (syncStep3 ingest (buildIndexedSet fi.AllFiles) disk fi ci).1
        (syncStep3 ingest (buildIndexedSet fi.AllFiles) disk fi ci).2.1).1
      (syncStep4 disk (buildIndexedSet fi.AllFiles)
        (syncStep3 ingest (buildIndexedSet fi.AllFiles) disk fi ci).1
        (syncStep3 ingest (buildIndexedSet fi.AllFiles) disk fi ci).2.1).2.1 p
  refine ⟨hmiss, hstale, hmod, ?_, ?_, ?_, ?_⟩
  · rintro p ⟨h1, h2⟩
    obtain ⟨info, hmem, _⟩ := (hmiss p).mp h1
    obtain ⟨_, _, hdisk⟩ := (hstale p).mp h2
    have : (alookup p disk).isSome := (alookup_isSome_iff_mem_akeys p disk).mpr
      (List.mem_map_of_mem Prod.fst hmem)
    rw [hdisk] at this
    cases this
  · rintro p ⟨h1, h2⟩
    obtain ⟨_, _, hnone⟩ := (hmiss p).mp h1
    obtain ⟨_, ix, _, hsome, _⟩ := (hmod p).mp h2
    rw [hnone] at hsome
    cases hsome
  · rintro p ⟨h1, h2⟩
    obtain ⟨_, _, hdisk⟩ := (hstale p).mp h1
    obtain ⟨info, _, hmem, _, _⟩ := (hmod p).mp h2
    have : (alookup p disk).isSome := (alookup_isSome_iff_mem_akeys p disk).mpr
      (List.mem_map_of_mem Prod.fst hmem)
    rw [hdisk] at this
    cases this
  · intro p hp
    obtain ⟨hf3, hc3⟩ := syncStep3_nodup ingest (buildIndexedSet fi.AllFiles) disk fi ci hf hc
    have hp4 : p ∈ (syncStep4 disk (buildIndexedSet fi.AllFiles)
        (syncStep3 ingest (buildIndexedSet fi.AllFiles) disk fi ci).1
        (syncStep3 ingest (buildIndexedSet fi.AllFiles) disk fi ci).2.1).2.2 := hp
    obtain ⟨hf4, hc4⟩ := syncStep4_stale_none disk (buildIndexedSet fi.AllFiles)
      (syncStep3 ingest (buildIndexedSet fi.AllFiles) disk fi ci).1
      (syncStep3 ingest (buildIndexedSet fi.AllFiles) disk fi ci).2.1 hf3 hc3 p hp4
    obtain ⟨_, _, hdisk⟩ := (hstale p).mp hp
    have hne : ∀ pr ∈ disk, pr.1 ≠ p := by
      rintro pr hpr rfl
      have : (alookup pr.1 disk).isSome := (alookup_isSome_iff_mem_akeys pr.1 disk).mpr
        (List.mem_map_of_mem Prod.fst hpr)
      rw [hdisk] at this
      cases this
    exact syncStep5_preserve_none ingest (buildIndexedSet fi.AllFiles) disk
      (syncStep4 disk (buildIndexedSet fi.AllFiles)
        (syncStep3 ingest (buildIndexedSet fi.AllFiles) disk fi ci).1
        (syncStep3 ingest (buildIndexedSet fi.AllFiles) disk fi ci).2.1).1
      (syncStep4 disk (buildIndexedSet fi.AllFiles)
        (syncStep3 ingest (buildIndexedSet fi.AllFiles) disk fi ci).1
        (syncStep3 ingest (buildIndexedSet fi.AllFiles) disk fi ci).2.1).2.1 p hne hf4 hc4

/-- Witness for C9 at a concrete disk snapshot and index pair. -/
theorem claim_C9_witness :
    ("c.go" ∈ (performSyncVerification ingest9 disk9 fi9 ci9).missing ↔
      ∃ info, ("c.go", info) ∈ disk9 ∧ alookup "c.go" (buildIndexedSet fi9.AllFiles) = none) ∧
    ("old.go" ∈ (performSyncVerification ingest9 disk9 fi9 ci9).stale ↔
      ∃ v, ("old.go", v) ∈ buildIndexedSet fi9.AllFiles ∧ alookup "old.go" disk9 = none) ∧
    ("a.go" ∈ (performSyncVerification ingest9 disk9 fi9 ci9).modified ↔
      ∃ info ix, ("a.go", info) ∈ disk9 ∧
        alookup "a.go" (buildIndexedSet fi9.AllFiles) = some ix ∧
        info.modTime ≠ ix.ModTime) ∧
    (¬("a.go" ∈ (performSyncVerification ingest9 disk9 fi9 ci9).missing ∧
      "a.go" ∈ (performSyncVerification ingest9 disk9 fi9 ci9).stale)) ∧
    (alookup "old.go" (performSyncVerification ingest9 disk9 fi9 ci9).fi.files = none ∧
      alookup "old.go" (performSyncVerification ingest9 disk9 fi9 ci9).ci.fileContents =
        none) :=
  ⟨(claim_C9 ingest9 disk9 fi9 ci9 (by decide) (by decide)).1 "c.go",
   (claim_C9 ingest9 disk9 fi9 ci9 (by decide) (by decide)).2.1 "old.go",
   (claim_C9 ingest9 disk9 fi9 ci9 (by decide) (by decide)).2.2.1 "a.go",
   (claim_C9 ingest9 disk9 fi9 ci9 (by decide) (by decide)).2.2.2.1 "a.go",
   (claim_C9 ingest9 disk9 fi9 ci9 (by decide) (by decide)).2.2.2.2.2.2 "old.go" (by decide)⟩

end CodeIndex
